import Mathlib

/-!
# longbrot.c: fixed-point Mandelbrot renderer

A shallow embedding of `Contrib/veekooFIN/Fractals/src/longbrot.c` and the
properties of its escape-time engine (`mandelbrot`), its viewport scan and its
palette lookup (`main`).

Integer model.  A C `long` is modelled by `Int`.  Every function that computes
on `long` values takes a parameter `long : Int → Int`, the conversion applied
to the mathematical result of each `*`, `+`, `-` and `/` before it is stored:
`id` gives arithmetic over unbounded integers, `wrap32` gives 32-bit
two's-complement wrap-around.  The code as it runs on the target is the
`wrap32` instance; the `id` instance is the arithmetic the specification
reasons in, and the two agree on a call as long as no product leaves the
32-bit range (`mandelbrot32_eq_of_fit`).  `>>` on a `long` is the arithmetic
(floor) shift, `Int.shiftRight`.  The `int` variables (`i`, `x`, `y`, `data`) never
leave `0..160`, so they carry no conversion.
-/

namespace Longbrot

/-! ## Constants (the `#define`s) -/

/-- The constant `#define WIDTH 160`. -/
def WIDTH : Nat := 160

/-- The constant `#define HEIGHT 120`. -/
def HEIGHT : Nat := 120

/-- The constant `#define NORM_BITS 13`. -/
def NORM_BITS : Nat := 13

/-- The constant `#define F 8192`. -/
def F : Int := 8192

/-- Reduction of an integer to the signed 32-bit range `[-2^31, 2^31 - 1]`
(two's-complement wrap-around). -/
def wrap32 (v : Int) : Int := (v + 2147483648) % 4294967296 - 2147483648

/-! ## The escape-time engine -/

/-- The `for (i = 0; i < 15; i++)` loop of `mandelbrot`.  The first `Nat` is the
number of iterations still allowed (`15 - i`); `i`, `real`, `imag` are the
loop-carried variables.  A `break` returns the current `i`. -/
def mandelbrotLoop (long : Int → Int) (real0 imag0 : Int) : Nat → Int → Int → Int → Int
  | 0, i, _, _ => i
  | n + 1, i, real, imag =>
    let realq := long (real * real) >>> NORM_BITS
    let imagq := long (imag * imag) >>> NORM_BITS
    if long (realq + imagq) > 32768 then i
    else
      let imag' := long ((long (real * imag) >>> (NORM_BITS - 1)) + imag0)
      let real' := long (long (realq - imagq) + real0)
      mandelbrotLoop long real0 imag0 n (i + 1) real' imag'

/-- The function `int mandelbrot(long real0, long imag0)` under the integer model `long`. -/
def mandelbrotWith (long : Int → Int) (real0 imag0 : Int) : Int :=
  mandelbrotLoop long real0 imag0 15 0 real0 imag0

/-- The function `mandelbrot` over unbounded integers: the arithmetic the
specification reasons in.  It is what the compiled code computes only as long
as no intermediate value leaves the 32-bit range of `long`; the code as it
runs is `mandelbrot32`. -/
def mandelbrot (real0 imag0 : Int) : Int := mandelbrotWith id real0 imag0

/-- The function `mandelbrot` as it runs on the target, where `long` has 32
bits and arithmetic wraps around. -/
def mandelbrot32 (real0 imag0 : Int) : Int := mandelbrotWith wrap32 real0 imag0

/-- The products `real * real`, `imag * imag` and `real * imag` evaluated by the
loop of `mandelbrot` over unbounded integers, in evaluation order.  The
recursion is that of `mandelbrotLoop id`; `real * imag` is only evaluated when
the iteration does not `break`. -/
def productsLoop (real0 imag0 : Int) : Nat → Int → Int → List Int
  | 0, _, _ => []
  | n + 1, real, imag =>
    let realq := (real * real) >>> NORM_BITS
    let imagq := (imag * imag) >>> NORM_BITS
    if realq + imagq > 32768 then [real * real, imag * imag]
    else
      let imag' := ((real * imag) >>> (NORM_BITS - 1)) + imag0
      let real' := realq - imagq + real0
      [real * real, imag * imag, real * imag] ++ productsLoop real0 imag0 n real' imag'

/-- All products evaluated by one call `mandelbrot(real0, imag0)`. -/
def mandelbrotProducts (real0 imag0 : Int) : List Int :=
  productsLoop real0 imag0 15 real0 imag0

/-- Membership in the signed 32-bit range. -/
def inRange32 (v : Int) : Bool := decide (-2147483648 ≤ v) && decide (v ≤ 2147483647)

/-- One execution of the loop body of `mandelbrot` at the running point
`(real, imag)`: `none` when the escape check breaks out of the loop, otherwise
the updated `(real, imag)`. -/
def loopBody (long : Int → Int) (real0 imag0 real imag : Int) : Option (Int × Int) :=
  let realq := long (real * real) >>> NORM_BITS
  let imagq := long (imag * imag) >>> NORM_BITS
  if long (realq + imagq) > 32768 then none
  else
    let imag' := long ((long (real * imag) >>> (NORM_BITS - 1)) + imag0)
    let real' := long (long (realq - imagq) + real0)
    some (real', imag')

/-- The running points `(real, imag)` at which the loop of `mandelbrot`
evaluates its escape check, in order, under the integer model `long`.  The
recursion is that of `mandelbrotLoop long`. -/
def checksLoop (long : Int → Int) (real0 imag0 : Int) : Nat → Int → Int → List (Int × Int)
  | 0, _, _ => []
  | n + 1, real, imag =>
    let realq := long (real * real) >>> NORM_BITS
    let imagq := long (imag * imag) >>> NORM_BITS
    if long (realq + imagq) > 32768 then [(real, imag)]
    else
      let imag' := long ((long (real * imag) >>> (NORM_BITS - 1)) + imag0)
      let real' := long (long (realq - imagq) + real0)
      (real, imag) :: checksLoop long real0 imag0 n real' imag'

/-- The running points of all escape checks of one call
`mandelbrot(real0, imag0)` under the integer model `long`. -/
def mandelbrotChecks (long : Int → Int) (real0 imag0 : Int) : List (Int × Int) :=
  checksLoop long real0 imag0 15 real0 imag0

/-- The value `realq + imagq` that the escape check compares with `32768` at
the running point `z`, under the integer model `long`. -/
def checkValue (long : Int → Int) (z : Int × Int) : Int :=
  long ((long (z.1 * z.1) >>> NORM_BITS) + (long (z.2 * z.2) >>> NORM_BITS))

/-! ## The orbit, as the specification words it -/

/-- The orbit `z_0 = (real0, imag0)`,
`z_{n+1} = ((re_n^2 >> 13) - (im_n^2 >> 13) + real0, ((re_n * im_n) >> 12) + imag0)`
over unbounded integers. -/
def orbit (real0 imag0 : Int) : Nat → Int × Int
  | 0 => (real0, imag0)
  | n + 1 =>
    let z := orbit real0 imag0 n
    (((z.1 ^ 2) >>> (13 : Nat)) - ((z.2 ^ 2) >>> (13 : Nat)) + real0,
      ((z.1 * z.2) >>> (12 : Nat)) + imag0)

/-- A point escapes when `(re^2 >> 13) + (im^2 >> 13) > 32768`. -/
def escapes (z : Int × Int) : Prop :=
  ((z.1 ^ 2) >>> (13 : Nat)) + ((z.2 ^ 2) >>> (13 : Nat)) > 32768

instance (z : Int × Int) : Decidable (escapes z) := by
  unfold escapes; infer_instance

/-! ## The render pass (`main`) -/

/-- The conversion `(long) (c * (float) F)` of `main` for the decimal literal
`c = num / den`.  `F` is a power of two and the literals of `main` have two
significant digits, so the floating-point product differs from the exact
product `num * F / den` by far less than its distance to the next integer
(`0` or at least `0.4`); the conversion to `long` truncates toward zero. -/
def truncMulF (num den : Int) : Int := Int.tdiv (num * F) den

/-- The bound `realmin = (long) ((-2.0) * (float) F)`. -/
def realmin : Int := truncMulF (-20) 10

/-- The bound `realmax = (long) ((0.7) * (float) F)`. -/
def realmax : Int := truncMulF 7 10

/-- The bound `imagmin = (long) ((-1.2) * (float) F)`. -/
def imagmin : Int := truncMulF (-12) 10

/-- The bound `imagmax = (long) ((1.2) * (float) F)`. -/
def imagmax : Int := truncMulF 12 10

/-- The step `deltareal = (realmax - realmin) / (long) WIDTH`; C division truncates. -/
def deltareal (long : Int → Int) : Int :=
  long (Int.tdiv (long (realmax - realmin)) (WIDTH : Int))

/-- The step `deltaimag = (imagmax - imagmin) / (long) HEIGHT`; C division truncates. -/
def deltaimag (long : Int → Int) : Int :=
  long (Int.tdiv (long (imagmax - imagmin)) (HEIGHT : Int))

/-- The palette `col[0] .. col[15]` as assigned at the start of `main`. -/
def col : List Int :=
  [0x01, 0x02, 0x03, 0x07, 0x0b, 0x0f, 0x0e, 0x0d,
   0x0c, 0x3c, 0x38, 0x34, 0x30, 0x20, 0x10, 0x00]

/-- The array read `col[data]`; `none` when `data` is not an index of `col`. -/
def colAt (data : Int) : Option Int :=
  if 0 ≤ data then col[data.toNat]? else none

/-- The observable state of `main`: the loop-carried seed `real0`, `imag0`,
the framebuffer `screen` as a list of rows (`screenMemory[y][x]` is entry `x`
of row `y`), and two logs kept for stating properties: every
`drawPixel(x, y, color)` call and every `mandelbrot(real0, imag0)` call made
for a pixel `(x, y)`, oldest first. -/
structure State where
  real0 : Int
  imag0 : Int
  screen : List (List Int)
  writes : List (Nat × Nat × Int)
  calls : List (Nat × Nat × Int × Int)

/-- A framebuffer of `HEIGHT` rows of `WIDTH` cells each. -/
def IsGrid (screen : List (List Int)) : Prop :=
  screen.length = HEIGHT ∧ ∀ row ∈ screen, row.length = WIDTH

/-- The content of `screenMemory[y][x]`, if the cell exists. -/
def pixel (screen : List (List Int)) (y x : Nat) : Option Int :=
  screen[y]?.bind fun row => row[x]?

/-- The function `drawPixel(x, y, color)`: `screenMemory[y][x] = color`.  A write outside
the `HEIGHT` by `WIDTH` grid is outside the modelled framebuffer and fails. -/
def drawPixel (st : State) (x y : Nat) (color : Int) : Option State :=
  if x < WIDTH ∧ y < HEIGHT then
    some { st with
      screen := st.screen.set y ((st.screen.getD y []).set x color)
      writes := st.writes ++ [(x, y, color)] }
  else none

/-- A counted loop `for (k = 0; k < n; k++) body`: runs `body 0`, ...,
`body (n - 1)` in this order, stopping at the first failure. -/
def forLoop {σ : Type} (body : Nat → σ → Option σ) : Nat → σ → Option σ
  | 0, s => some s
  | n + 1, s => (forLoop body n s).bind (body n)

/-- The first loop nest of `main`: `drawPixel(x, y, col[15])` for `y` outer,
`x` inner. -/
def clearScreen (st : State) : Option State :=
  forLoop (fun y s =>
    forLoop (fun x s' => (colAt 15).bind (drawPixel s' x y)) WIDTH s) HEIGHT st

/-- The body of the inner render loop for pixel `(x, y)`:
`data = mandelbrot(real0, imag0); drawPixel(x, y, col[data]); imag0 -= deltaimag;` -/
def renderPixel (long : Int → Int) (x y : Nat) (st : State) : Option State :=
  let data := mandelbrotWith long st.real0 st.imag0
  let st1 := { st with calls := st.calls ++ [(x, y, st.real0, st.imag0)] }
  (colAt data).bind fun color =>
    (drawPixel st1 x y color).bind fun st2 =>
      some { st2 with imag0 := long (st2.imag0 - deltaimag long) }

/-- The body of the outer render loop for column `x`:
`imag0 = imagmax; for (y ...) {...}; real0 += deltareal;` -/
def renderColumn (long : Int → Int) (x : Nat) (st : State) : Option State :=
  (forLoop (renderPixel long x) HEIGHT { st with imag0 := imagmax }).bind fun st1 =>
    some { st1 with real0 := long (st1.real0 + deltareal long) }

/-- The render loop nest of `main`: `real0 = realmin; for (x ...) {...}`. -/
def renderLoop (long : Int → Int) (st : State) : Option State :=
  forLoop (renderColumn long) WIDTH { st with real0 := realmin }

/-- The function `main`, run on a framebuffer with contents `screen0`, under the
integer model `long`.  The two `SYS_SetMode` calls only switch the video mode
and are not modelled; the locals `real0`, `imag0` are assigned before they are
read, so their initial value is immaterial. -/
def main (long : Int → Int) (screen0 : List (List Int)) : Option State :=
  (clearScreen { real0 := 0, imag0 := 0, screen := screen0, writes := [], calls := [] }).bind
    (renderLoop long)

/-! ## Closed forms used to state the properties of `main` -/

/-- The seed of pixel `(x, y)` in closed form:
`(realmin + x * deltareal, imagmax - y * deltaimag)`. -/
def seed (long : Int → Int) (x y : Nat) : Int × Int :=
  (realmin + x * deltareal long, imagmax - y * deltaimag long)

/-- The colour `col[mandelbrot(real0, imag0)]`, `0` if the lookup fails. -/
def shade (long : Int → Int) (real0 imag0 : Int) : Int :=
  (colAt (mandelbrotWith long real0 imag0)).getD 0

/-- The `mandelbrot` calls of a full scan, `x` outer and `y` inner, each with
the closed-form seed of its pixel. -/
def gridCalls (long : Int → Int) : List (Nat × Nat × Int × Int) :=
  (List.range WIDTH).flatMap fun x =>
    (List.range HEIGHT).map fun y => (x, y, (seed long x y).1, (seed long x y).2)

/-- The `drawPixel` calls of the first loop nest, `y` outer and `x` inner. -/
def clearWrites : List (Nat × Nat × Int) :=
  (List.range HEIGHT).flatMap fun y => (List.range WIDTH).map fun x => (x, y, 0)

/-- The `drawPixel` calls of the render loop nest, `x` outer and `y` inner. -/
def renderWrites (long : Int → Int) : List (Nat × Nat × Int) :=
  (List.range WIDTH).flatMap fun x =>
    (List.range HEIGHT).map fun y =>
      (x, y, shade long (seed long x y).1 (seed long x y).2)

/-- A sequence of cells that has exactly `19200` entries, all pairwise distinct,
in which every cell `(x, y)` with `x < 160` and `y < 120` occurs exactly once. -/
def EachCellOnce (cells : List (Nat × Nat)) : Prop :=
  cells.length = 19200 ∧ cells.Nodup ∧
    ∀ x y, x < 160 → y < 120 → cells.count (x, y) = 1

/-- A sequence of `drawPixel` calls `(x, y, color)` of length `38400` in which
every cell `(x, y)` with `x < 160` and `y < 120` is written exactly once among
the first `19200` calls, exactly once among the calls after them, and so
exactly twice in all. -/
def EachCellTwice (writes : List (Nat × Nat × Int)) : Prop :=
  writes.length = 38400 ∧
    ∀ x y, x < 160 → y < 120 →
      ((writes.take 19200).map fun w => (w.1, w.2.1)).count (x, y) = 1 ∧
      ((writes.drop 19200).map fun w => (w.1, w.2.1)).count (x, y) = 1 ∧
      (writes.map fun w => (w.1, w.2.1)).count (x, y) = 2

/-- An integer model that stores every value of the signed 32-bit range
unchanged. -/
def Exact32 (long : Int → Int) : Prop :=
  ∀ v : Int, -2147483648 ≤ v → v ≤ 2147483647 → long v = v

/-! ## Basic facts about the loop -/

theorem mandelbrotLoop_bounds (long : Int → Int) (real0 imag0 : Int) :
    ∀ (n : Nat) (i real imag : Int),
      i ≤ mandelbrotLoop long real0 imag0 n i real imag ∧
      mandelbrotLoop long real0 imag0 n i real imag ≤ i + n := by
  intro n
  induction n with
  | zero => intro i real imag; simp [mandelbrotLoop]
  | succ n ih =>
    intro i real imag
    simp only [mandelbrotLoop]
    split
    · constructor <;> push_cast <;> omega
    · have h := ih (i + 1)
        (long (long (long (real * real) >>> NORM_BITS - long (imag * imag) >>> NORM_BITS) + real0))
        (long ((long (real * imag) >>> (NORM_BITS - 1)) + imag0))
      constructor
      · omega
      · push_cast; omega

/-- The loop over unbounded integers, started at `z_k` with counter `k`, stops
at the first escaping point of the orbit or runs out of iterations. -/
theorem mandelbrotLoop_orbit (real0 imag0 : Int) :
    ∀ (n k : Nat),
      ∃ m : Nat, mandelbrotLoop id real0 imag0 n k
          (orbit real0 imag0 k).1 (orbit real0 imag0 k).2 = m ∧
        k ≤ m ∧ m ≤ k + n ∧
        (∀ j, k ≤ j → j < m → ¬ escapes (orbit real0 imag0 j)) ∧
        (m < k + n → escapes (orbit real0 imag0 m)) := by
  intro n
  induction n with
  | zero =>
    intro k
    exact ⟨k, by simp [mandelbrotLoop], le_refl _, le_refl _,
      fun j h1 h2 => absurd h2 (by omega), fun h => absurd h (by omega)⟩
  | succ n ih =>
    intro k
    by_cases hesc : escapes (orbit real0 imag0 k)
    · refine ⟨k, ?_, le_refl _, by omega, fun j h1 h2 => absurd h2 (by omega), fun _ => hesc⟩
      have h := hesc
      simp only [escapes, pow_two] at h
      simp only [mandelbrotLoop, id, NORM_BITS]
      rw [if_pos h]
    · obtain ⟨m, hm, hkm, hmn, hbefore, hat⟩ := ih (k + 1)
      refine ⟨m, ?_, by omega, by omega, ?_, fun h => hat (by omega)⟩
      · have h := hesc
        simp only [escapes, pow_two] at h
        simp only [mandelbrotLoop, id, NORM_BITS]
        rw [if_neg h]
        simp only [orbit, pow_two, Nat.cast_add, Nat.cast_one] at hm
        exact hm
      · intro j h1 h2
        by_cases hj : j = k
        · subst hj; exact hesc
        · exact hbefore j (by omega) h2

/-- One iteration of the loop, unfolded. -/
theorem mandelbrotLoop_succ (long : Int → Int) (real0 imag0 : Int) (n : Nat)
    (i real imag : Int) :
    mandelbrotLoop long real0 imag0 (n + 1) i real imag =
      if long (long (real * real) >>> NORM_BITS + long (imag * imag) >>> NORM_BITS) > 32768
      then i
      else mandelbrotLoop long real0 imag0 n (i + 1)
        (long (long (long (real * real) >>> NORM_BITS - long (imag * imag) >>> NORM_BITS)
          + real0))
        (long ((long (real * imag) >>> (NORM_BITS - 1)) + imag0)) := rfl

/-- The call returns `0` exactly when the very first escape check fires. -/
theorem mandelbrot_eq_zero_iff (real0 imag0 : Int) :
    mandelbrot real0 imag0 = 0 ↔
      ((real0 * real0) >>> (13 : Nat)) + ((imag0 * imag0) >>> (13 : Nat)) > 32768 := by
  have hstep := mandelbrotLoop_succ id real0 imag0 14 0 real0 imag0
  have hb := (mandelbrotLoop_bounds id real0 imag0 14 (0 + 1)
      (id (id (id (real0 * real0) >>> NORM_BITS - id (imag0 * imag0) >>> NORM_BITS) + real0))
      (id ((id (real0 * imag0) >>> (NORM_BITS - 1)) + imag0))).1
  unfold mandelbrot mandelbrotWith
  rw [show mandelbrotLoop id real0 imag0 15 0 real0 imag0 = _ from hstep]
  simp only [id, NORM_BITS] at hb ⊢
  constructor
  · intro h
    by_contra hne
    rw [if_neg hne] at h
    omega
  · intro h
    rw [if_pos h]

/-- The floor shift by `13` is the floor division by `8192`. -/
theorem shiftRight13 (v : Int) : v >>> (13 : Nat) = v / 8192 := by
  rw [Int.shiftRight_eq_div_pow]; norm_num

/-- The floor shift by `12` is the floor division by `4096`. -/
theorem shiftRight12 (v : Int) : v >>> (12 : Nat) = v / 4096 := by
  rw [Int.shiftRight_eq_div_pow]; norm_num

/-! ## The escape-time engine: claims -/

/-- C1: for every seed, `mandelbrot(real0, imag0)` returns an integer between
`0` and `15`: over unbounded integers, with 32-bit wrap-around arithmetic, and
in fact however the results of the arithmetic operations are stored. -/
theorem mandelbrot_range (real0 imag0 : Int) :
    (0 ≤ mandelbrot real0 imag0 ∧ mandelbrot real0 imag0 ≤ 15) ∧
    (0 ≤ mandelbrot32 real0 imag0 ∧ mandelbrot32 real0 imag0 ≤ 15) ∧
    ∀ long : Int → Int,
      0 ≤ mandelbrotWith long real0 imag0 ∧ mandelbrotWith long real0 imag0 ≤ 15 := by
  have h : ∀ long : Int → Int,
      0 ≤ mandelbrotWith long real0 imag0 ∧ mandelbrotWith long real0 imag0 ≤ 15 := by
    intro long
    have hb := mandelbrotLoop_bounds long real0 imag0 15 0 real0 imag0
    unfold mandelbrotWith
    refine ⟨hb.1, ?_⟩
    have := hb.2
    push_cast at this
    omega
  exact ⟨h id, h wrap32, h⟩

/-- Over unbounded integers the result of the loop is the least `k` in `0..14`
whose orbit point `z_k` escapes, it is `15` when none of `z_0..z_14` escapes,
and it is `0` if and only if the seed itself escapes. -/
theorem first_escape_unbounded (real0 imag0 : Int) :
    (∀ k : Nat, k < 15 → escapes (orbit real0 imag0 k) →
        (∀ j : Nat, j < k → ¬ escapes (orbit real0 imag0 j)) →
        mandelbrot real0 imag0 = k) ∧
    ((∀ k : Nat, k < 15 → ¬ escapes (orbit real0 imag0 k)) →
        mandelbrot real0 imag0 = 15) ∧
    (mandelbrot real0 imag0 = 0 ↔ escapes (real0, imag0)) := by
  obtain ⟨m, hm, -, hle, hbefore, hat⟩ := mandelbrotLoop_orbit real0 imag0 15 0
  have hm' : mandelbrot real0 imag0 = m := by
    unfold mandelbrot mandelbrotWith
    simpa [orbit] using hm
  refine ⟨?_, ?_, ?_⟩
  · intro k hk hesc hmin
    rw [hm']
    have h1 : ¬ k < m := fun h => hbefore k (Nat.zero_le _) h hesc
    have h2 : ¬ m < k := fun h => hmin m h (hat (by omega))
    have : m = k := by omega
    rw [this]
  · intro hnone
    rw [hm']
    have : ¬ m < 15 := fun h => hnone m h (hat (by omega))
    have : m = 15 := by omega
    rw [this]; rfl
  · rw [mandelbrot_eq_zero_iff]
    simp only [escapes, pow_two]

/-- C3, counterexample: the seed `(16384, 1)` has exact squared magnitude
`2^28 + 1 > 32768 * 2^13`, yet the call does not return `0` (it returns `1`
over unbounded integers and `5` with 32-bit wrap-around). -/
theorem mandelbrot_exact_magnitude_counterexample :
    (16384 : Int) * 16384 + 1 * 1 > 32768 * 2 ^ 13 ∧
      mandelbrot 16384 1 = 1 ∧ mandelbrot32 16384 1 = 5 :=
  ⟨by decide, by decide, by decide⟩

/-- Over unbounded integers the loop returns `0` for every seed whose squared
magnitude with each square truncated to the fixed-point scale exceeds the
threshold, and so whenever the exact squared magnitude exceeds `32768 * 2^13`
by more than the two truncation losses. -/
theorem zero_of_escape_unbounded (real0 imag0 : Int) :
    (((real0 * real0) >>> (13 : Nat)) + ((imag0 * imag0) >>> (13 : Nat)) > 32768 →
        mandelbrot real0 imag0 = 0) ∧
    (real0 * real0 + imag0 * imag0 > 32768 * 2 ^ 13 + 2 * (2 ^ 13 - 1) →
        mandelbrot real0 imag0 = 0) := by
  refine ⟨fun h => (mandelbrot_eq_zero_iff real0 imag0).2 h, fun h => ?_⟩
  apply (mandelbrot_eq_zero_iff real0 imag0).2
  rw [shiftRight13, shiftRight13]
  norm_num at h
  omega

/-- C4: `mandelbrot(0, 0)` returns `15`, the cap (with either integer model). -/
theorem mandelbrot_origin : mandelbrot 0 0 = 15 ∧ mandelbrot32 0 0 = 15 :=
  ⟨by decide, by decide⟩

/-! ## The framebuffer and the counted loop -/

/-- Reading a cell after a `drawPixel` on a well-formed framebuffer. -/
theorem pixel_set (screen : List (List Int)) (x y r c : Nat) (v : Int)
    (hg : IsGrid screen) (hx : x < WIDTH) (hy : y < HEIGHT) :
    pixel (screen.set y ((screen.getD y []).set x v)) r c =
      if r = y ∧ c = x then some v else pixel screen r c := by
  obtain ⟨hlen, hrows⟩ := hg
  have hy' : y < screen.length := by omega
  have hrow : (screen.getD y []).length = WIDTH := by
    rw [List.getD_eq_getElem _ _ hy']
    exact hrows _ (List.getElem_mem _)
  unfold pixel
  by_cases hr : r = y
  · subst hr
    rw [List.getElem?_set_self hy']
    simp only [Option.some_bind, true_and]
    by_cases hc : c = x
    · subst hc
      rw [List.getElem?_set_self (by omega)]
      simp
    · rw [List.getElem?_set_ne (Ne.symm hc)]
      simp [hc, List.getD_eq_getElem?_getD, List.getElem?_eq_getElem hy']
  · rw [List.getElem?_set_ne (Ne.symm hr)]
    simp [hr]

/-- A `drawPixel` keeps the framebuffer well formed. -/
theorem isGrid_set (screen : List (List Int)) (x y : Nat) (v : Int)
    (hg : IsGrid screen) (hy : y < HEIGHT) :
    IsGrid (screen.set y ((screen.getD y []).set x v)) := by
  obtain ⟨hlen, hrows⟩ := hg
  have hy' : y < screen.length := by omega
  refine ⟨by rw [List.length_set]; exact hlen, ?_⟩
  intro row hrow
  rcases List.mem_or_eq_of_mem_set hrow with h | h
  · exact hrows row h
  · rw [h, List.length_set, List.getD_eq_getElem _ _ hy']
    exact hrows _ (List.getElem_mem _)

/-- Invariant rule for the counted loop: an invariant that holds initially and
is re-established by every successful iteration holds at the end, and the loop
does not fail. -/
theorem forLoop_inv {σ : Type} (body : Nat → σ → Option σ) (P : Nat → σ → Prop)
    (n : Nat) (s : σ) (h0 : P 0 s)
    (hstep : ∀ k t, k < n → P k t → ∃ t', body k t = some t' ∧ P (k + 1) t') :
    ∃ t, forLoop body n s = some t ∧ P n t := by
  induction n with
  | zero => exact ⟨s, rfl, h0⟩
  | succ n ih =>
    obtain ⟨t, ht, hP⟩ := ih (fun k t hk hp => hstep k t (by omega) hp)
    obtain ⟨t', ht', hP'⟩ := hstep n t (by omega) hP
    exact ⟨t', by simp [forLoop, ht, ht'], hP'⟩

/-! ## Constants of `main` -/

theorem realmin_eq : realmin = -16384 := by decide

theorem realmax_eq : realmax = 5734 := by decide

theorem imagmin_eq : imagmin = -9830 := by decide

theorem imagmax_eq : imagmax = 9830 := by decide

theorem exact32_id : Exact32 id := fun _ _ _ => rfl

theorem exact32_wrap32 : Exact32 wrap32 := by
  intro v h1 h2
  unfold wrap32
  omega

theorem deltareal_eq (long : Int → Int) (hl : Exact32 long) : deltareal long = 138 := by
  unfold deltareal
  rw [realmax_eq, realmin_eq, hl (5734 - -16384) (by decide) (by decide)]
  have : Int.tdiv (5734 - -16384) ((WIDTH : Nat) : Int) = 138 := by decide
  rw [this]
  exact hl _ (by decide) (by decide)

theorem deltaimag_eq (long : Int → Int) (hl : Exact32 long) : deltaimag long = 163 := by
  unfold deltaimag
  rw [imagmax_eq, imagmin_eq, hl (9830 - -9830) (by decide) (by decide)]
  have : Int.tdiv (9830 - -9830) ((HEIGHT : Nat) : Int) = 163 := by decide
  rw [this]
  exact hl _ (by decide) (by decide)

/-- The palette lookup on a result of `mandelbrot` succeeds. -/
theorem colAt_mandelbrotWith (long : Int → Int) (real0 imag0 : Int) :
    colAt (mandelbrotWith long real0 imag0) = some (shade long real0 imag0) := by
  have hb := mandelbrotLoop_bounds long real0 imag0 15 0 real0 imag0
  unfold shade mandelbrotWith
  generalize mandelbrotLoop long real0 imag0 15 0 real0 imag0 = d at hb
  obtain ⟨h0, h15⟩ := hb
  lift d to Nat using h0
  have hd : d ≤ 15 := by push_cast at h15; omega
  interval_cases d <;> rfl

/-! ## The render loop nest -/

/-- The inner render loop of column `x`, run for `n` rows. -/
theorem renderPixel_loop (long : Int → Int) (hl : Exact32 long) (x : Nat) (hx : x < WIDTH)
    (s : State) (hi : s.imag0 = imagmax) (n : Nat) (hn : n ≤ HEIGHT) :
    ∃ t, forLoop (renderPixel long x) n s = some t ∧
      t.real0 = s.real0 ∧ t.imag0 = imagmax - n * deltaimag long ∧
      t.writes = s.writes ++ (List.range n).map
        (fun y : Nat => (x, y, shade long s.real0 (imagmax - y * deltaimag long))) ∧
      t.calls = s.calls ++ (List.range n).map
        (fun y : Nat => (x, y, s.real0, imagmax - y * deltaimag long)) ∧
      (IsGrid s.screen → IsGrid t.screen ∧ ∀ r c, pixel t.screen r c =
        if c = x ∧ r < n then some (shade long s.real0 (imagmax - r * deltaimag long))
        else pixel s.screen r c) := by
  apply forLoop_inv (renderPixel long x) (fun k t =>
      t.real0 = s.real0 ∧ t.imag0 = imagmax - k * deltaimag long ∧
      t.writes = s.writes ++ (List.range k).map
        (fun y : Nat => (x, y, shade long s.real0 (imagmax - y * deltaimag long))) ∧
      t.calls = s.calls ++ (List.range k).map
        (fun y : Nat => (x, y, s.real0, imagmax - y * deltaimag long)) ∧
      (IsGrid s.screen → IsGrid t.screen ∧ ∀ r c, pixel t.screen r c =
        if c = x ∧ r < k then some (shade long s.real0 (imagmax - r * deltaimag long))
        else pixel s.screen r c))
  · refine ⟨rfl, by simp [hi], by simp, by simp, fun hg => ⟨hg, fun r c => by simp⟩⟩
  · intro k t hk ⟨hre, him, hw, hc, hscr⟩
    have hky : k < HEIGHT := by omega
    have hk120 : k < 120 := hky
    have hdi := deltaimag_eq long hl
    unfold renderPixel
    simp only [colAt_mandelbrotWith, Option.some_bind, drawPixel, hx, hky, and_self, if_true]
    refine ⟨_, rfl, hre, ?_, ?_, ?_, ?_⟩
    · show long (t.imag0 - deltaimag long) = imagmax - ((k + 1 : Nat) : Int) * deltaimag long
      rw [him, hdi, imagmax_eq]
      push_cast
      rw [hl _ (by omega) (by omega)]
      ring
    · show t.writes ++ [(x, k, shade long t.real0 t.imag0)] = _
      rw [hw, hre, him, List.range_succ, List.map_append, List.append_assoc]
      rfl
    · show t.calls ++ [(x, k, t.real0, t.imag0)] = _
      rw [hc, hre, him, List.range_succ, List.map_append, List.append_assoc]
      rfl
    · intro hg
      obtain ⟨hgt, hpix⟩ := hscr hg
      refine ⟨isGrid_set _ _ _ _ hgt hky, fun r c => ?_⟩
      show pixel (t.screen.set k ((t.screen.getD k []).set x _)) r c = _
      rw [pixel_set _ _ _ _ _ _ hgt hx hky, hpix, hre, him]
      by_cases h1 : r = k
      · subst h1
        by_cases h2 : c = x
        · simp [h2]
        · simp [h2]
      · by_cases h2 : c = x
        · have : (r < k + 1) ↔ r < k := by omega
          simp [h1, h2, this]
        · simp [h2]

/-- One column of the render loop nest. -/
theorem renderColumn_spec (long : Int → Int) (hl : Exact32 long) (x : Nat) (hx : x < WIDTH)
    (s : State) (hr : s.real0 = realmin + x * deltareal long) :
    ∃ t, renderColumn long x s = some t ∧
      t.real0 = realmin + ((x + 1 : Nat) : Int) * deltareal long ∧
      t.writes = s.writes ++ (List.range HEIGHT).map
        (fun y : Nat => (x, y, shade long (seed long x y).1 (seed long x y).2)) ∧
      t.calls = s.calls ++ (List.range HEIGHT).map
        (fun y : Nat => (x, y, (seed long x y).1, (seed long x y).2)) ∧
      (IsGrid s.screen → IsGrid t.screen ∧ ∀ r c, pixel t.screen r c =
        if c = x ∧ r < HEIGHT then some (shade long (seed long c r).1 (seed long c r).2)
        else pixel s.screen r c) := by
  obtain ⟨t, ht, hre, -, hw, hc, hscr⟩ :=
    renderPixel_loop long hl x hx { s with imag0 := imagmax } rfl HEIGHT (le_refl _)
  have hx160 : x < 160 := hx
  have hdr := deltareal_eq long hl
  unfold renderColumn
  rw [ht]
  refine ⟨_, rfl, ?_, ?_, ?_, ?_⟩
  · show long (t.real0 + deltareal long) = _
    rw [hre]
    show long (s.real0 + deltareal long) = _
    rw [hr, hdr, realmin_eq]
    push_cast
    rw [hl _ (by omega) (by omega)]
    ring
  · show t.writes = _
    rw [hw]
    show s.writes ++ _ = _
    simp only [seed, hr]
  · show t.calls = _
    rw [hc]
    show s.calls ++ _ = _
    simp only [seed, hr]
  · intro hg
    obtain ⟨hgt, hpix⟩ := hscr hg
    refine ⟨hgt, fun r c => ?_⟩
    show pixel t.screen r c = _
    rw [hpix]
    show (if c = x ∧ r < HEIGHT then some (shade long s.real0 _) else pixel s.screen r c) = _
    by_cases h : c = x
    · subst h; simp only [seed, hr]
    · simp [h]

/-- The whole render loop nest, started in any state. -/
theorem renderLoop_spec (long : Int → Int) (hl : Exact32 long) (s : State) :
    ∃ t, renderLoop long s = some t ∧
      t.writes = s.writes ++ renderWrites long ∧
      t.calls = s.calls ++ gridCalls long ∧
      (IsGrid s.screen → IsGrid t.screen ∧ ∀ r c, pixel t.screen r c =
        if c < WIDTH ∧ r < HEIGHT then some (shade long (seed long c r).1 (seed long c r).2)
        else pixel s.screen r c) := by
  have key := forLoop_inv (renderColumn long) (fun k t =>
      t.real0 = realmin + (k : Int) * deltareal long ∧
      t.writes = s.writes ++ (List.range k).flatMap (fun x =>
        (List.range HEIGHT).map
          (fun y : Nat => (x, y, shade long (seed long x y).1 (seed long x y).2))) ∧
      t.calls = s.calls ++ (List.range k).flatMap (fun x =>
        (List.range HEIGHT).map
          (fun y : Nat => (x, y, (seed long x y).1, (seed long x y).2))) ∧
      (IsGrid s.screen → IsGrid t.screen ∧ ∀ r c, pixel t.screen r c =
        if c < k ∧ r < HEIGHT then some (shade long (seed long c r).1 (seed long c r).2)
        else pixel s.screen r c))
    WIDTH { s with real0 := realmin }
    ⟨by simp, by simp, by simp, fun hg => ⟨hg, fun r c => by simp⟩⟩
    (by
      intro k t hk ⟨hre, hw, hc, hscr⟩
      obtain ⟨t', ht', hre', hw', hc', hscr'⟩ := renderColumn_spec long hl k hk t hre
      refine ⟨t', ht', hre', ?_, ?_, ?_⟩
      · rw [hw', hw, List.range_succ, List.flatMap_append, List.flatMap_singleton,
          List.append_assoc]
      · rw [hc', hc, List.range_succ, List.flatMap_append, List.flatMap_singleton,
          List.append_assoc]
      · intro hg
        obtain ⟨hgt, hpix⟩ := hscr hg
        obtain ⟨hgt', hpix'⟩ := hscr' hgt
        refine ⟨hgt', fun r c => ?_⟩
        rw [hpix', hpix]
        by_cases h1 : r < HEIGHT
        · by_cases h2 : c = k
          · simp [h1, h2]
          · have : (c < k + 1) ↔ c < k := by omega
            simp [h1, h2, this]
        · simp [h1])
  obtain ⟨t, ht, -, hw, hc, hscr⟩ := key
  exact ⟨t, ht, hw, hc, hscr⟩

/-! ## The first loop nest -/

/-- The inner loop of the first loop nest on row `y`, run for `n` columns. -/
theorem clearRow_loop (y : Nat) (hy : y < HEIGHT) (s : State) (n : Nat) (hn : n ≤ WIDTH) :
    ∃ t, forLoop (fun x s' => (colAt 15).bind (drawPixel s' x y)) n s = some t ∧
      t.calls = s.calls ∧
      t.writes = s.writes ++ (List.range n).map (fun x => (x, y, (0 : Int))) ∧
      (IsGrid s.screen → IsGrid t.screen ∧ ∀ r c, pixel t.screen r c =
        if r = y ∧ c < n then some 0 else pixel s.screen r c) := by
  apply forLoop_inv (fun x s' => (colAt 15).bind (drawPixel s' x y)) (fun k t =>
      t.calls = s.calls ∧
      t.writes = s.writes ++ (List.range k).map (fun x => (x, y, (0 : Int))) ∧
      (IsGrid s.screen → IsGrid t.screen ∧ ∀ r c, pixel t.screen r c =
        if r = y ∧ c < k then some 0 else pixel s.screen r c))
  · exact ⟨rfl, by simp, fun hg => ⟨hg, fun r c => by simp⟩⟩
  · intro k t hk ⟨hc, hw, hscr⟩
    have hkx : k < WIDTH := by omega
    have h15 : colAt 15 = some 0 := by decide
    simp only [h15, Option.some_bind, drawPixel, hkx, hy, and_self, if_true]
    refine ⟨_, rfl, hc, ?_, ?_⟩
    · show t.writes ++ [(k, y, 0)] = _
      rw [hw, List.range_succ, List.map_append, List.append_assoc]
      rfl
    · intro hg
      obtain ⟨hgt, hpix⟩ := hscr hg
      refine ⟨isGrid_set _ _ _ _ hgt hy, fun r c => ?_⟩
      show pixel (t.screen.set y ((t.screen.getD y []).set k 0)) r c = _
      rw [pixel_set _ _ _ _ _ _ hgt hkx hy, hpix]
      by_cases h1 : r = y
      · by_cases h2 : c = k
        · simp [h1, h2]
        · have : (c < k + 1) ↔ c < k := by omega
          simp [h1, h2, this]
      · simp [h1]

/-- The first loop nest of `main`, started in any state. -/
theorem clearScreen_spec (s : State) :
    ∃ t, clearScreen s = some t ∧
      t.calls = s.calls ∧
      t.writes = s.writes ++ clearWrites ∧
      (IsGrid s.screen → IsGrid t.screen ∧ ∀ r c, pixel t.screen r c =
        if r < HEIGHT ∧ c < WIDTH then some 0 else pixel s.screen r c) := by
  apply forLoop_inv (fun y s =>
      forLoop (fun x s' => (colAt 15).bind (drawPixel s' x y)) WIDTH s) (fun k t =>
      t.calls = s.calls ∧
      t.writes = s.writes ++ (List.range k).flatMap (fun y =>
        (List.range WIDTH).map (fun x => (x, y, (0 : Int)))) ∧
      (IsGrid s.screen → IsGrid t.screen ∧ ∀ r c, pixel t.screen r c =
        if r < k ∧ c < WIDTH then some 0 else pixel s.screen r c))
  · exact ⟨rfl, by simp, fun hg => ⟨hg, fun r c => by simp⟩⟩
  · intro k t hk ⟨hc, hw, hscr⟩
    obtain ⟨t', ht', hc', hw', hscr'⟩ := clearRow_loop k hk t WIDTH (le_refl _)
    refine ⟨t', ht', hc'.trans hc, ?_, ?_⟩
    · rw [hw', hw, List.range_succ, List.flatMap_append, List.flatMap_singleton,
        List.append_assoc]
    · intro hg
      obtain ⟨hgt, hpix⟩ := hscr hg
      obtain ⟨hgt', hpix'⟩ := hscr' hgt
      refine ⟨hgt', fun r c => ?_⟩
      rw [hpix', hpix]
      by_cases h1 : c < WIDTH
      · by_cases h2 : r = k
        · simp [h1, h2]
        · have : (r < k + 1) ↔ r < k := by omega
          simp [h1, h2, this]
      · simp [h1]

/-! ## The whole of `main` -/

/-- What a run of `main` does: it terminates normally, calls `mandelbrot` on the
closed-form seeds in scan order, performs the writes of the two loop nests, and
leaves `col[mandelbrot(seed)]` in every cell of a well-formed framebuffer. -/
theorem main_spec (long : Int → Int) (hl : Exact32 long) (screen0 : List (List Int)) :
    ∃ st, main long screen0 = some st ∧
      st.calls = gridCalls long ∧
      st.writes = clearWrites ++ renderWrites long ∧
      (IsGrid screen0 → IsGrid st.screen ∧ ∀ r c, r < HEIGHT → c < WIDTH →
        pixel st.screen r c = some (shade long (seed long c r).1 (seed long c r).2)) := by
  obtain ⟨t, ht, hc, hw, hscr⟩ := clearScreen_spec
    { real0 := 0, imag0 := 0, screen := screen0, writes := [], calls := [] }
  obtain ⟨t', ht', hw', hc', hscr'⟩ := renderLoop_spec long hl t
  refine ⟨t', ?_, ?_, ?_, ?_⟩
  · unfold main
    rw [ht, Option.some_bind]
    exact ht'
  · rw [hc', hc, List.nil_append]
  · rw [hw', hw, List.nil_append]
  · intro hg
    obtain ⟨hgt, -⟩ := hscr hg
    obtain ⟨hgt', hpix'⟩ := hscr' hgt
    refine ⟨hgt', fun r c hr hc => ?_⟩
    rw [hpix']
    simp [hr, hc]

/-- The scan visits the cells `x` outer, `y` inner. -/
theorem gridCalls_cells (long : Int → Int) :
    (gridCalls long).map (fun c => (c.1, c.2.1)) =
      (List.range WIDTH).flatMap fun x => (List.range HEIGHT).map fun y => (x, y) := by
  unfold gridCalls
  rw [List.map_flatMap]
  simp only [List.map_map]
  rfl

/-- The render loop nest draws the cells it evaluates, in the same order. -/
theorem renderWrites_cells (long : Int → Int) :
    (renderWrites long).map (fun w => (w.1, w.2.1)) =
      (List.range WIDTH).flatMap fun x => (List.range HEIGHT).map fun y => (x, y) := by
  unfold renderWrites
  rw [List.map_flatMap]
  simp only [List.map_map]
  rfl

/-- A scan `a` outer over `0..m-1`, `b` inner over `0..n-1` lists `m * n`
pairs, without repetition, and contains exactly the pairs in range. -/
theorem scan_cells (m n : Nat) :
    ((List.range m).flatMap fun a => (List.range n).map fun b => (a, b)).length = m * n ∧
    ((List.range m).flatMap fun a => (List.range n).map fun b => (a, b)).Nodup ∧
    ∀ a b, (a, b) ∈ ((List.range m).flatMap fun a => (List.range n).map fun b => (a, b)) ↔
      a < m ∧ b < n := by
  refine ⟨?_, ?_, ?_⟩
  · induction m with
    | zero => simp
    | succ m ih =>
      rw [List.range_succ, List.flatMap_append, List.length_append, ih]
      simp [Nat.succ_mul]
  · rw [List.nodup_flatMap]
    refine ⟨fun a _ => ?_, ?_⟩
    · exact (List.nodup_range n).map (fun b1 b2 h => by simpa using h)
    · refine (List.nodup_range m).pairwise_of_forall_ne ?_
      intro a _ a' _ hne p hp hp'
      simp only [List.mem_map] at hp hp'
      obtain ⟨b, -, rfl⟩ := hp
      obtain ⟨b', -, h⟩ := hp'
      exact hne (by simpa using (congrArg Prod.fst h).symm)
  · intro a b
    simp [List.mem_flatMap, List.mem_map, List.mem_range]

/-! ## The render pass: claims -/

/-- C5: with `realmin = -16384`, `realmax = 5734`, `imagmin = -9830`,
`imagmax = 9830`, the step sizes are the truncated quotients
`(realmax - realmin) / 160 = 138` and `(imagmax - imagmin) / 120 = 163`, and a
run of `main` calls `mandelbrot` for the pixels `(x, y)`, `x` in `0..159` outer
and `y` in `0..119` inner, with the seed obtained by repeated addition and
subtraction equal to `(realmin + x * deltareal, imagmax - y * deltaimag)`
(under either integer model). -/
theorem main_seeds_closed_form (screen0 : List (List Int)) :
    (realmin = -16384 ∧ realmax = 5734 ∧ imagmin = -9830 ∧ imagmax = 9830) ∧
    (deltareal id = Int.tdiv (realmax - realmin) 160 ∧ deltareal id = 138 ∧
      deltaimag id = Int.tdiv (imagmax - imagmin) 120 ∧ deltaimag id = 163) ∧
    (deltareal wrap32 = 138 ∧ deltaimag wrap32 = 163) ∧
    (∃ st, main id screen0 = some st ∧
      st.calls = (List.range 160).flatMap fun (x : Nat) => (List.range 120).map fun (y : Nat) =>
        (x, y, realmin + (x : Int) * deltareal id, imagmax - (y : Int) * deltaimag id)) ∧
    (∃ st, main wrap32 screen0 = some st ∧
      st.calls = (List.range 160).flatMap fun (x : Nat) => (List.range 120).map fun (y : Nat) =>
        (x, y, realmin + (x : Int) * deltareal wrap32,
          imagmax - (y : Int) * deltaimag wrap32)) := by
  refine ⟨⟨realmin_eq, realmax_eq, imagmin_eq, imagmax_eq⟩,
    ⟨rfl, deltareal_eq id exact32_id, rfl, deltaimag_eq id exact32_id⟩,
    ⟨deltareal_eq wrap32 exact32_wrap32, deltaimag_eq wrap32 exact32_wrap32⟩, ?_, ?_⟩
  · obtain ⟨st, hst, hc, -, -⟩ := main_spec id exact32_id screen0
    exact ⟨st, hst, hc⟩
  · obtain ⟨st, hst, hc, -, -⟩ := main_spec wrap32 exact32_wrap32 screen0
    exact ⟨st, hst, hc⟩

/-- The first `mandelbrot` call of the scan is the one for pixel `(0, 0)`. -/
theorem gridCalls_head (long : Int → Int) :
    (gridCalls long).head? = some (0, 0, realmin, imagmax) := by
  unfold gridCalls
  rw [show WIDTH = 159 + 1 from rfl, List.range_succ_eq_map, List.flatMap_cons,
    show HEIGHT = 119 + 1 from rfl, List.range_succ_eq_map, List.map_cons,
    List.cons_append, List.head?_cons]
  simp [seed]

/-- C6: for the reference viewport the bounds truncate to `realmin = -16384`
and `imagmax = 9830`, the sample `(x = 0, y = 0)` (the first `mandelbrot` call
of `main`) receives the seed `(-16384, 9830)`, and
`mandelbrot(-16384, 9830)` returns `0` (under either integer model). -/
theorem reference_first_sample (screen0 : List (List Int)) :
    (realmin = -16384 ∧ imagmax = 9830) ∧
    (∃ st, main id screen0 = some st ∧ st.calls.head? = some (0, 0, -16384, 9830)) ∧
    (∃ st, main wrap32 screen0 = some st ∧ st.calls.head? = some (0, 0, -16384, 9830)) ∧
    mandelbrot (-16384) 9830 = 0 ∧ mandelbrot32 (-16384) 9830 = 0 := by
  refine ⟨⟨realmin_eq, imagmax_eq⟩, ?_, ?_, by decide, by decide⟩
  · obtain ⟨st, hst, hc, -, -⟩ := main_spec id exact32_id screen0
    exact ⟨st, hst, by rw [hc, gridCalls_head, realmin_eq, imagmax_eq]⟩
  · obtain ⟨st, hst, hc, -, -⟩ := main_spec wrap32 exact32_wrap32 screen0
    exact ⟨st, hst, by rw [hc, gridCalls_head, realmin_eq, imagmax_eq]⟩

/-- A nested scan of `m` by `n` performs `m * n` steps. -/
theorem length_scan {α : Type} (m n : Nat) (f : Nat → Nat → α) :
    ((List.range m).flatMap fun a => (List.range n).map (f a)).length = m * n := by
  induction m with
  | zero => simp
  | succ m ih =>
    rw [List.range_succ, List.flatMap_append, List.length_append, ih]
    simp [Nat.succ_mul]

/-- A member of a list without repetition occurs in it once. -/
theorem count_cell_eq_one (l : List (Nat × Nat)) (p : Nat × Nat) (hnd : l.Nodup)
    (hm : p ∈ l) : l.count p = 1 := by
  induction l with
  | nil => simp at hm
  | cons b l ih =>
    rw [List.nodup_cons] at hnd
    rw [List.count_cons]
    by_cases h : b = p
    · subst h
      simp [List.count_eq_zero_of_not_mem hnd.1]
    · have hm' : p ∈ l := by
        rcases List.mem_cons.1 hm with h' | h'
        · exact absurd h'.symm h
        · exact h'
      simp [ih hnd.2 hm', h]

/-- The cells of a full scan of the grid occur once each. -/
theorem eachCellOnce_scan :
    EachCellOnce ((List.range WIDTH).flatMap fun x => (List.range HEIGHT).map fun y => (x, y)) := by
  obtain ⟨hlen, hnd, hmem⟩ := scan_cells WIDTH HEIGHT
  exact ⟨hlen, hnd, fun x y hx hy =>
    count_cell_eq_one _ _ hnd ((hmem x y).2 ⟨hx, hy⟩)⟩

/-- The writes of the render loop nest are those after the `19200` writes of
the first loop nest. -/
theorem drop_clearWrites (l : List (Nat × Nat × Int)) :
    (clearWrites ++ l).drop 19200 = l :=
  List.drop_left' (length_scan HEIGHT WIDTH fun y x => (x, y, (0 : Int)))

/-- C7: the render loop of `main` (`x` outer over `0..159`, `y` inner over
`0..119`) evaluates `mandelbrot` and draws for exactly `19200` pairs `(x, y)`,
pairwise distinct, every cell of the grid occurring exactly once (under either
integer model).  The draws of the render loop are the writes that follow the
`19200` writes of the first loop nest. -/
theorem render_loop_each_cell_once (screen0 : List (List Int)) :
    (∃ st, main id screen0 = some st ∧
      EachCellOnce (st.calls.map fun c => (c.1, c.2.1)) ∧
      (st.writes.drop 19200).map (fun w => (w.1, w.2.1)) =
        st.calls.map fun c => (c.1, c.2.1)) ∧
    (∃ st, main wrap32 screen0 = some st ∧
      EachCellOnce (st.calls.map fun c => (c.1, c.2.1)) ∧
      (st.writes.drop 19200).map (fun w => (w.1, w.2.1)) =
        st.calls.map fun c => (c.1, c.2.1)) := by
  constructor
  · obtain ⟨st, hst, hc, hw, -⟩ := main_spec id exact32_id screen0
    refine ⟨st, hst, ?_, ?_⟩
    · rw [hc, gridCalls_cells]; exact eachCellOnce_scan
    · rw [hc, hw, drop_clearWrites, gridCalls_cells, renderWrites_cells]
  · obtain ⟨st, hst, hc, hw, -⟩ := main_spec wrap32 exact32_wrap32 screen0
    refine ⟨st, hst, ?_, ?_⟩
    · rw [hc, gridCalls_cells]; exact eachCellOnce_scan
    · rw [hc, hw, drop_clearWrites, gridCalls_cells, renderWrites_cells]

/-- C8: the palette `col` has exactly `16 = 15 + 1` entries, for every seed the
result of `mandelbrot` is a valid index of it (under either integer model),
and no run of `main` fails on a palette lookup. -/
theorem palette_index_valid (real0 imag0 : Int) :
    col.length = 16 ∧
    (0 ≤ mandelbrot real0 imag0 ∧ (mandelbrot real0 imag0).toNat < col.length ∧
      ∃ color, colAt (mandelbrot real0 imag0) = some color) ∧
    (0 ≤ mandelbrot32 real0 imag0 ∧ (mandelbrot32 real0 imag0).toNat < col.length ∧
      ∃ color, colAt (mandelbrot32 real0 imag0) = some color) ∧
    ∀ screen0, (main id screen0).isSome ∧ (main wrap32 screen0).isSome := by
  have h1 := mandelbrotLoop_bounds id real0 imag0 15 0 real0 imag0
  have h2 := mandelbrotLoop_bounds wrap32 real0 imag0 15 0 real0 imag0
  have hlen : col.length = 16 := rfl
  refine ⟨hlen, ⟨h1.1, ?_, _, colAt_mandelbrotWith id real0 imag0⟩,
    ⟨h2.1, ?_, _, colAt_mandelbrotWith wrap32 real0 imag0⟩, fun screen0 => ⟨?_, ?_⟩⟩
  · have := h1.2
    unfold mandelbrot mandelbrotWith
    push_cast at this
    omega
  · have := h2.2
    unfold mandelbrot32 mandelbrotWith
    push_cast at this
    omega
  · obtain ⟨st, hst, -⟩ := main_spec id exact32_id screen0
    rw [hst]; rfl
  · obtain ⟨st, hst, -⟩ := main_spec wrap32 exact32_wrap32 screen0
    rw [hst]; rfl

/-- The closed-form seed with the constants written out. -/
theorem seed_eq (long : Int → Int) (hl : Exact32 long) (x y : Nat) :
    seed long x y = (-16384 + 138 * (x : Int), 9830 - 163 * (y : Int)) := by
  unfold seed
  rw [deltareal_eq long hl, deltaimag_eq long hl, realmin_eq, imagmax_eq]
  ext <;> simp <;> ring

/-- C10: on a framebuffer of 120 rows by 160 columns with arbitrary initial
contents, `main` finishes and every cell then holds
`screen[y][x] = col[mandelbrot(-16384 + 138*x, 9830 - 163*y)]` for all
`0 <= x < 160` and `0 <= y < 120` (under either integer model, each with its
own `mandelbrot`). -/
theorem main_image (screen0 : List (List Int)) (hg : IsGrid screen0) :
    (∃ st, main id screen0 = some st ∧ IsGrid st.screen ∧
      ∀ x y : Nat, x < 160 → y < 120 → ∃ color,
        colAt (mandelbrot (-16384 + 138 * (x : Int)) (9830 - 163 * (y : Int))) = some color ∧
        pixel st.screen y x = some color) ∧
    (∃ st, main wrap32 screen0 = some st ∧ IsGrid st.screen ∧
      ∀ x y : Nat, x < 160 → y < 120 → ∃ color,
        colAt (mandelbrot32 (-16384 + 138 * (x : Int)) (9830 - 163 * (y : Int))) = some color ∧
        pixel st.screen y x = some color) := by
  constructor
  · obtain ⟨st, hst, -, -, hscr⟩ := main_spec id exact32_id screen0
    obtain ⟨hgs, hpix⟩ := hscr hg
    refine ⟨st, hst, hgs, fun x y hx hy => ⟨_, ?_, hpix y x hy hx⟩⟩
    rw [seed_eq id exact32_id]
    exact colAt_mandelbrotWith id _ _
  · obtain ⟨st, hst, -, -, hscr⟩ := main_spec wrap32 exact32_wrap32 screen0
    obtain ⟨hgs, hpix⟩ := hscr hg
    refine ⟨st, hst, hgs, fun x y hx hy => ⟨_, ?_, hpix y x hy hx⟩⟩
    rw [seed_eq wrap32 exact32_wrap32]
    exact colAt_mandelbrotWith wrap32 _ _

/-- A blank framebuffer of 120 rows by 160 columns is well formed. -/
theorem isGrid_replicate (v : Int) :
    IsGrid (List.replicate 120 (List.replicate 160 v)) := by
  refine ⟨by simp [HEIGHT], fun row hrow => ?_⟩
  rw [(List.mem_replicate.1 hrow).2]
  simp [WIDTH]

/-- Witness for C10: `main` run on the all-zero framebuffer. -/
theorem main_image_witness :
    IsGrid (List.replicate 120 (List.replicate 160 0)) ∧
    ∃ st, main id (List.replicate 120 (List.replicate 160 0)) = some st ∧ IsGrid st.screen ∧
      ∀ x y : Nat, x < 160 → y < 120 → ∃ color,
        colAt (mandelbrot (-16384 + 138 * (x : Int)) (9830 - 163 * (y : Int))) = some color ∧
        pixel st.screen y x = some color :=
  ⟨isGrid_replicate 0,
    (main_image (List.replicate 120 (List.replicate 160 0)) (isGrid_replicate 0)).1⟩

/-! ## Products and the 32-bit range -/

theorem shiftRightNB (v : Int) : v >>> NORM_BITS = v / 8192 := shiftRight13 v

theorem shiftRightNB1 (v : Int) : v >>> (NORM_BITS - 1) = v / 4096 := shiftRight12 v

/-- One iteration of the product log, unfolded. -/
theorem productsLoop_succ (real0 imag0 : Int) (n : Nat) (real imag : Int) :
    productsLoop real0 imag0 (n + 1) real imag =
      if (real * real) >>> NORM_BITS + (imag * imag) >>> NORM_BITS > 32768
      then [real * real, imag * imag]
      else [real * real, imag * imag, real * imag] ++
        productsLoop real0 imag0 n
          ((real * real) >>> NORM_BITS - (imag * imag) >>> NORM_BITS + real0)
          ((real * imag) >>> (NORM_BITS - 1) + imag0) := rfl

/-- When every product of the unbounded run fits in 32 bits (and the seed is
not extreme), the 32-bit run takes the same steps. -/
theorem mandelbrotLoop_wrap32_eq (real0 imag0 : Int)
    (hr : -1073741824 ≤ real0 ∧ real0 ≤ 1073741824)
    (hi : -1073741824 ≤ imag0 ∧ imag0 ≤ 1073741824) :
    ∀ (n : Nat) (i real imag : Int),
      (∀ p ∈ productsLoop real0 imag0 n real imag, -2147483648 ≤ p ∧ p ≤ 2147483647) →
      mandelbrotLoop wrap32 real0 imag0 n i real imag =
        mandelbrotLoop id real0 imag0 n i real imag := by
  intro n
  induction n with
  | zero => intro i real imag _; rfl
  | succ n ih =>
    intro i real imag hp
    rw [productsLoop_succ] at hp
    rw [mandelbrotLoop_succ, mandelbrotLoop_succ]
    simp only [id]
    have hw := exact32_wrap32
    by_cases hesc : (real * real) >>> NORM_BITS + (imag * imag) >>> NORM_BITS > 32768
    · rw [if_pos hesc] at hp
      have h1 := hp (real * real) (by simp)
      have h2 := hp (imag * imag) (by simp)
      rw [hw _ h1.1 h1.2, hw _ h2.1 h2.2]
      have h3 : wrap32 ((real * real) >>> NORM_BITS + (imag * imag) >>> NORM_BITS) =
          (real * real) >>> NORM_BITS + (imag * imag) >>> NORM_BITS := by
        apply hw <;> (rw [shiftRightNB, shiftRightNB]; omega)
      rw [h3, if_pos hesc, if_pos hesc]
    · rw [if_neg hesc] at hp
      have h1 := hp (real * real) (by simp)
      have h2 := hp (imag * imag) (by simp)
      have h4 := hp (real * imag) (by simp)
      rw [hw _ h1.1 h1.2, hw _ h2.1 h2.2, hw _ h4.1 h4.2]
      have h3 : wrap32 ((real * real) >>> NORM_BITS + (imag * imag) >>> NORM_BITS) =
          (real * real) >>> NORM_BITS + (imag * imag) >>> NORM_BITS := by
        apply hw <;> (rw [shiftRightNB, shiftRightNB]; omega)
      have h5 : wrap32 ((real * real) >>> NORM_BITS - (imag * imag) >>> NORM_BITS) =
          (real * real) >>> NORM_BITS - (imag * imag) >>> NORM_BITS := by
        apply hw <;> (rw [shiftRightNB, shiftRightNB]; omega)
      have h6 : wrap32 ((real * real) >>> NORM_BITS - (imag * imag) >>> NORM_BITS + real0) =
          (real * real) >>> NORM_BITS - (imag * imag) >>> NORM_BITS + real0 := by
        apply hw <;> (rw [shiftRightNB, shiftRightNB]; omega)
      have h7 : wrap32 ((real * imag) >>> (NORM_BITS - 1) + imag0) =
          (real * imag) >>> (NORM_BITS - 1) + imag0 := by
        apply hw <;> (rw [shiftRightNB1]; omega)
      rw [h3, if_neg hesc, if_neg hesc, h5, h6, h7]
      apply ih
      intro p hmem
      exact hp p (by simp [hmem])

/-- For a seed with `|real0| <= 13572` and `|imag0| <= 13570`, as long as the
running point stays within `32768` resp. `32770` of the seed, every product
evaluated fits in 32 bits; and each iteration that does not break keeps the
running point within these distances. -/
theorem productsLoop_inRange (real0 imag0 : Int)
    (hr : -13572 ≤ real0 ∧ real0 ≤ 13572) (hi : -13570 ≤ imag0 ∧ imag0 ≤ 13570) :
    ∀ (n : Nat) (real imag : Int),
      (-32768 ≤ real - real0 ∧ real - real0 ≤ 32768) →
      (-32770 ≤ imag - imag0 ∧ imag - imag0 ≤ 32770) →
      ∀ p ∈ productsLoop real0 imag0 n real imag, -2147483648 ≤ p ∧ p ≤ 2147483647 := by
  intro n
  induction n with
  | zero => intro real imag _ _ p hp; simp [productsLoop] at hp
  | succ n ih =>
    intro real imag hre him
    have hr1 : -46340 ≤ real := by omega
    have hr2 : real ≤ 46340 := by omega
    have hi1 : -46340 ≤ imag := by omega
    have hi2 : imag ≤ 46340 := by omega
    have haa : 0 ≤ real * real := mul_self_nonneg real
    have hbb : 0 ≤ imag * imag := mul_self_nonneg imag
    have ha : real * real ≤ 2147483647 := by nlinarith
    have hb : imag * imag ≤ 2147483647 := by nlinarith
    have hc1 : -2147483648 ≤ real * imag := by
      nlinarith [mul_nonneg (sub_nonneg.2 hr2) (sub_nonneg.2 hi2),
        mul_nonneg (sub_nonneg.2 hr1) (sub_nonneg.2 hi1)]
    have hc2 : real * imag ≤ 2147483647 := by
      nlinarith [mul_nonneg (sub_nonneg.2 hr2) (sub_nonneg.2 hi1),
        mul_nonneg (sub_nonneg.2 hr1) (sub_nonneg.2 hi2)]
    have hs1 : 2 * (real * imag) ≤ real * real + imag * imag := by
      nlinarith [sq_nonneg (real - imag)]
    have hs2 : -(2 * (real * imag)) ≤ real * real + imag * imag := by
      nlinarith [sq_nonneg (real + imag)]
    intro p hp
    rw [productsLoop_succ] at hp
    by_cases hesc : (real * real) >>> NORM_BITS + (imag * imag) >>> NORM_BITS > 32768
    · rw [if_pos hesc] at hp
      simp only [List.mem_cons, List.mem_singleton, List.not_mem_nil, or_false] at hp
      rcases hp with h | h <;> (subst h; constructor <;> omega)
    · rw [if_neg hesc] at hp
      rw [shiftRightNB, shiftRightNB] at hesc
      rcases List.mem_append.1 hp with h | h
      · simp only [List.mem_cons, List.mem_singleton, List.not_mem_nil, or_false] at h
        rcases h with h | h | h <;> (subst h; constructor <;> omega)
      · refine ih _ _ ?_ ?_ p h
        · rw [shiftRightNB, shiftRightNB]; constructor <;> omega
        · rw [shiftRightNB1]; constructor <;> omega

/-- The columns `x < 21` of the reference grid, checked seed by seed: apart from
the pixels `(7, 73)` and `(8, 47)`, every product evaluated fits in 32 bits. -/
theorem lowColumns_inRange :
    ((List.range 21).all fun x => (List.range 120).all fun y =>
      (x == 7 && y == 73) || (x == 8 && y == 47) ||
        (mandelbrotProducts (-16384 + 138 * (x : Int)) (9830 - 163 * (y : Int))).all
          inRange32) = true := by
  decide!

/-- On the reference grid, apart from the pixels `(7, 73)` and `(8, 47)`, every
product evaluated by `mandelbrot` over unbounded integers fits in 32 bits. -/
theorem grid_products_inRange (x y : Nat) (hx : x < 160) (hy : y < 120)
    (h1 : (x, y) ≠ (7, 73)) (h2 : (x, y) ≠ (8, 47)) :
    ∀ p ∈ mandelbrotProducts (-16384 + 138 * (x : Int)) (9830 - 163 * (y : Int)),
      -2147483648 ≤ p ∧ p ≤ 2147483647 := by
  by_cases hlow : x < 21
  · have h := lowColumns_inRange
    rw [List.all_eq_true] at h
    have hx' := h x (List.mem_range.2 hlow)
    rw [List.all_eq_true] at hx'
    have hy' := hx' y (List.mem_range.2 hy)
    simp only [Bool.or_eq_true, Bool.and_eq_true, beq_iff_eq, List.all_eq_true] at hy'
    rcases hy' with (⟨rfl, rfl⟩ | ⟨rfl, rfl⟩) | hall
    · exact absurd rfl h1
    · exact absurd rfl h2
    · intro p hp
      have := hall p hp
      simpa [inRange32] using this
  · unfold mandelbrotProducts
    exact productsLoop_inRange _ _ (by constructor <;> omega) (by constructor <;> omega)
      15 _ _ (by constructor <;> omega) (by constructor <;> omega)

/-- C9, counterexample: for the pixel `(7, 73)` of the reference grid, seed
`(-15418, -2069)`, the fourth iteration evaluates
`real * real = 47149^2 = 2223028201 > 2^31 - 1`, and the iteration count is `3`
over unbounded integers but `4` with 32-bit wrap-around. -/
theorem grid_overflow_counterexample :
    (7 < 160 ∧ 73 < 120) ∧
    (2223028201 : Int) ∈ mandelbrotProducts (-16384 + 138 * 7) (9830 - 163 * 73) ∧
    (2223028201 : Int) > 2 ^ 31 - 1 ∧
    mandelbrot (-16384 + 138 * 7) (9830 - 163 * 73) = 3 ∧
    mandelbrot32 (-16384 + 138 * 7) (9830 - 163 * 73) = 4 :=
  ⟨by decide, by decide, by decide, by decide, by decide⟩

/-- The second pixel of the reference grid with an overflowing product,
`(8, 47)`, seed `(-15280, 2169)`: `real * real = 46992^2 = 2208248064`, count
`3` over unbounded integers and `4` with 32-bit wrap-around. -/
theorem grid_overflow_second :
    (2208248064 : Int) ∈ mandelbrotProducts (-16384 + 138 * 8) (9830 - 163 * 47) ∧
    (2208248064 : Int) > 2 ^ 31 - 1 ∧
    mandelbrot (-16384 + 138 * 8) (9830 - 163 * 47) = 3 ∧
    mandelbrot32 (-16384 + 138 * 8) (9830 - 163 * 47) = 4 :=
  ⟨by decide, by decide, by decide, by decide⟩

/-- C9, amended: for every sample `(x, y)` of the reference grid other than
`(7, 73)` and `(8, 47)`, every product `real * real`, `imag * imag` and
`real * imag` that `mandelbrot` evaluates over unbounded integers lies in the
signed 32-bit range, and the iteration count computed with 32-bit wrap-around
arithmetic equals the one computed over unbounded integers. -/
theorem grid_products_fit (x y : Nat) (hx : x < 160) (hy : y < 120)
    (h1 : (x, y) ≠ (7, 73)) (h2 : (x, y) ≠ (8, 47)) :
    (∀ p ∈ mandelbrotProducts (-16384 + 138 * (x : Int)) (9830 - 163 * (y : Int)),
      -2 ^ 31 ≤ p ∧ p ≤ 2 ^ 31 - 1) ∧
    mandelbrot32 (-16384 + 138 * (x : Int)) (9830 - 163 * (y : Int)) =
      mandelbrot (-16384 + 138 * (x : Int)) (9830 - 163 * (y : Int)) := by
  have hp := grid_products_inRange x y hx hy h1 h2
  refine ⟨fun p hmem => by have := hp p hmem; norm_num; exact this, ?_⟩
  unfold mandelbrot32 mandelbrot mandelbrotWith
  exact mandelbrotLoop_wrap32_eq _ _ (by constructor <;> omega) (by constructor <;> omega)
    15 0 _ _ hp

/-- Witness for the amended C9 at the pixel `(0, 0)`. -/
theorem grid_products_fit_witness :
    (∀ p ∈ mandelbrotProducts (-16384 + 138 * ((0 : Nat) : Int)) (9830 - 163 * ((0 : Nat) : Int)),
      -2 ^ 31 ≤ p ∧ p ≤ 2 ^ 31 - 1) ∧
    mandelbrot32 (-16384 + 138 * ((0 : Nat) : Int)) (9830 - 163 * ((0 : Nat) : Int)) =
      mandelbrot (-16384 + 138 * ((0 : Nat) : Int)) (9830 - 163 * ((0 : Nat) : Int)) :=
  grid_products_fit 0 0 (by decide) (by decide) (by decide) (by decide)

/-! ## The loop body -/

/-- The loop of `mandelbrot` runs `loopBody` and counts its executions. -/
theorem mandelbrotLoop_succ_body (long : Int → Int) (real0 imag0 : Int) (n : Nat)
    (i real imag : Int) :
    mandelbrotLoop long real0 imag0 (n + 1) i real imag =
      match loopBody long real0 imag0 real imag with
      | none => i
      | some z => mandelbrotLoop long real0 imag0 n (i + 1) z.1 z.2 := by
  rw [mandelbrotLoop_succ]
  unfold loopBody
  by_cases h : long (long (real * real) >>> NORM_BITS + long (imag * imag) >>> NORM_BITS) > 32768
  · simp only [if_pos h]
  · simp only [if_neg h]

/-- Starting the counter one higher raises the result by one. -/
theorem mandelbrotLoop_counter (long : Int → Int) (real0 imag0 : Int) :
    ∀ (n : Nat) (i real imag : Int),
      mandelbrotLoop long real0 imag0 n (i + 1) real imag =
        mandelbrotLoop long real0 imag0 n i real imag + 1 := by
  intro n
  induction n with
  | zero => intro i real imag; rfl
  | succ n ih =>
    intro i real imag
    rw [mandelbrotLoop_succ, mandelbrotLoop_succ]
    by_cases h : long (long (real * real) >>> NORM_BITS + long (imag * imag) >>> NORM_BITS) > 32768
    · rw [if_pos h, if_pos h]
    · rw [if_neg h, if_neg h, ih]

/-- One execution of the loop body at `(0, 0)` gives the seed. -/
theorem loopBody_zero (real0 imag0 : Int) :
    loopBody id real0 imag0 0 0 = some (real0, imag0) := by
  simp [loopBody]

/-- Unfolding of one iteration of the log of check points. -/
theorem checksLoop_succ_long (long : Int → Int) (real0 imag0 : Int) (n : Nat)
    (real imag : Int) :
    checksLoop long real0 imag0 (n + 1) real imag =
      if long (long (real * real) >>> NORM_BITS + long (imag * imag) >>> NORM_BITS) > 32768
      then [(real, imag)]
      else (real, imag) :: checksLoop long real0 imag0 n
          (long (long (long (real * real) >>> NORM_BITS - long (imag * imag) >>> NORM_BITS)
            + real0))
          (long ((long (real * imag) >>> (NORM_BITS - 1)) + imag0)) := rfl

/-- Unfolding of one iteration of the log of check points, over unbounded
integers. -/
theorem checksLoop_succ (real0 imag0 : Int) (n : Nat) (real imag : Int) :
    checksLoop id real0 imag0 (n + 1) real imag =
      if (real * real) >>> NORM_BITS + (imag * imag) >>> NORM_BITS > 32768
      then [(real, imag)]
      else (real, imag) :: checksLoop id real0 imag0 n
          ((real * real) >>> NORM_BITS - (imag * imag) >>> NORM_BITS + real0)
          ((real * imag) >>> (NORM_BITS - 1) + imag0) := rfl

/-- The call returns `0` exactly when the first escape check fires, under any
integer model. -/
theorem mandelbrotWith_eq_zero_iff (long : Int → Int) (real0 imag0 : Int) :
    mandelbrotWith long real0 imag0 = 0 ↔ checkValue long (real0, imag0) > 32768 := by
  have hstep := mandelbrotLoop_succ long real0 imag0 14 0 real0 imag0
  have hb := (mandelbrotLoop_bounds long real0 imag0 14 (0 + 1)
      (long (long (long (real0 * real0) >>> NORM_BITS - long (imag0 * imag0) >>> NORM_BITS)
        + real0))
      (long ((long (real0 * imag0) >>> (NORM_BITS - 1)) + imag0))).1
  unfold mandelbrotWith
  rw [show mandelbrotLoop long real0 imag0 15 0 real0 imag0 = _ from hstep]
  simp only [checkValue]
  constructor
  · intro h
    by_contra hne
    rw [if_neg hne] at h
    omega
  · intro h
    rw [if_pos h]

/-! ## The escape-time engine: further claims -/

/-- C12: the escape test is strict.  Under any integer model, a running point
whose check value `(real*real >> 13) + (imag*imag >> 13)` equals `32768` does
not break out of the loop, and a seed with this check value is not given the
result `0`; for the seed `(-16384, 0)` the loop performs 15 escape checks, each
of them sees the value `32768`, and `mandelbrot(-16384, 0)` returns `15` (over
unbounded integers and with 32-bit wrap-around alike). -/
theorem threshold_is_strict :
    (∀ (long : Int → Int) (real0 imag0 real imag : Int),
      checkValue long (real, imag) = 32768 → (loopBody long real0 imag0 real imag).isSome) ∧
    (∀ (long : Int → Int) (real0 imag0 : Int),
      checkValue long (real0, imag0) = 32768 → mandelbrotWith long real0 imag0 ≠ 0) ∧
    (∀ real0 imag0 : Int,
      checkValue id (real0, imag0) = 32768 → mandelbrot real0 imag0 ≠ 0) ∧
    (∀ real0 imag0 : Int,
      checkValue wrap32 (real0, imag0) = 32768 → mandelbrot32 real0 imag0 ≠ 0) ∧
    (checkValue id (-16384, 0) = 32768 ∧ checkValue wrap32 (-16384, 0) = 32768) ∧
    (mandelbrotChecks id (-16384) 0).map (checkValue id) = List.replicate 15 32768 ∧
    (mandelbrotChecks wrap32 (-16384) 0).map (checkValue wrap32) = List.replicate 15 32768 ∧
    mandelbrot (-16384) 0 = 15 ∧ mandelbrot32 (-16384) 0 = 15 := by
  have hne : ∀ (long : Int → Int) (real0 imag0 : Int),
      checkValue long (real0, imag0) = 32768 → mandelbrotWith long real0 imag0 ≠ 0 := by
    intro long real0 imag0 h h0
    have := (mandelbrotWith_eq_zero_iff long real0 imag0).1 h0
    omega
  refine ⟨?_, hne, fun real0 imag0 => hne id real0 imag0,
    fun real0 imag0 => hne wrap32 real0 imag0,
    ⟨by decide, by decide⟩, by decide, by decide, by decide, by decide⟩
  intro long real0 imag0 real imag h
  simp only [checkValue] at h
  simp only [loopBody]
  rw [if_neg (by omega)]
  rfl

/-- C13: over unbounded integers, one execution of the loop body of
`mandelbrot` from `(real, imag) = (0, 0)` does not break and produces exactly
`(real0, imag0)`; hence the same loop started from `(0, 0)` with a cap of `16`
returns `mandelbrot(real0, imag0) + 1`, for every seed. -/
theorem start_at_seed_is_one_step_from_zero (real0 imag0 : Int) :
    loopBody id real0 imag0 0 0 = some (real0, imag0) ∧
    mandelbrotLoop id real0 imag0 16 0 0 0 = mandelbrot real0 imag0 + 1 := by
  refine ⟨loopBody_zero real0 imag0, ?_⟩
  rw [show (16 : Nat) = 15 + 1 from rfl, mandelbrotLoop_succ_body, loopBody_zero]
  show mandelbrotLoop id real0 imag0 15 (0 + 1) real0 imag0 = _
  rw [mandelbrotLoop_counter]
  rfl

/-- C14: the shift by `NORM_BITS - 1 = 12` of the cross term is the shift by
`NORM_BITS = 13` of the doubled product: for all integers `real` and `imag`,
`(real * imag) >> 12 = (2 * real * imag) >> 13` with `>>` the floor shift, so
the loop body updates `imag` to `((2 * real * imag) >> 13) + imag0`. -/
theorem cross_term_shift (real imag : Int) :
    NORM_BITS - 1 = 12 ∧
    (real * imag) >>> (NORM_BITS - 1) = (2 * real * imag) >>> NORM_BITS ∧
    ∀ (real0 imag0 : Int) (z : Int × Int), loopBody id real0 imag0 real imag = some z →
      z.2 = ((2 * real * imag) >>> NORM_BITS) + imag0 := by
  have hshift : (real * imag) >>> (NORM_BITS - 1) = (2 * real * imag) >>> NORM_BITS := by
    rw [shiftRightNB1, shiftRightNB, mul_assoc]
    omega
  refine ⟨rfl, hshift, ?_⟩
  intro real0 imag0 z hz
  simp only [loopBody, id] at hz
  by_cases h : (real * real) >>> NORM_BITS + (imag * imag) >>> NORM_BITS > 32768
  · rw [if_pos h] at hz
    exact absurd hz (by simp)
  · rw [if_neg h] at hz
    rw [← hshift, ← Option.some.inj hz]

/-- An iteration that does not break leaves the running point within `32768`
(real part) and `32770` (imaginary part) of the seed, wherever it started. -/
theorem loopBody_near_seed (real0 imag0 real imag : Int) (z : Int × Int)
    (h : loopBody id real0 imag0 real imag = some z) :
    |z.1 - real0| ≤ 32768 ∧ |z.2 - imag0| ≤ 32770 := by
  have haa : 0 ≤ real * real := mul_self_nonneg real
  have hbb : 0 ≤ imag * imag := mul_self_nonneg imag
  have hs1 : 2 * (real * imag) ≤ real * real + imag * imag := by
    nlinarith [sq_nonneg (real - imag)]
  have hs2 : -(2 * (real * imag)) ≤ real * real + imag * imag := by
    nlinarith [sq_nonneg (real + imag)]
  simp only [loopBody, id] at h
  by_cases hesc : (real * real) >>> NORM_BITS + (imag * imag) >>> NORM_BITS > 32768
  · rw [if_pos hesc] at h
    exact absurd h (by simp)
  · rw [if_neg hesc] at h
    rw [← Option.some.inj h]
    rw [shiftRightNB, shiftRightNB] at hesc
    constructor
    · show |(real * real) >>> NORM_BITS - (imag * imag) >>> NORM_BITS + real0 - real0| ≤ 32768
      rw [shiftRightNB, shiftRightNB, abs_le]
      constructor <;> omega
    · show |(real * imag) >>> (NORM_BITS - 1) + imag0 - imag0| ≤ 32770
      rw [shiftRightNB1, abs_le]
      constructor <;> omega

/-- From a running point near the seed on, every escape check of the loop is
evaluated at a point near the seed. -/
theorem checksLoop_near (real0 imag0 : Int) :
    ∀ (n : Nat) (real imag : Int),
      (|real - real0| ≤ 32768 ∧ |imag - imag0| ≤ 32770) →
      ∀ z ∈ checksLoop id real0 imag0 n real imag,
        |z.1 - real0| ≤ 32768 ∧ |z.2 - imag0| ≤ 32770 := by
  intro n
  induction n with
  | zero => intro real imag _ z hz; simp [checksLoop] at hz
  | succ n ih =>
    intro real imag hnear z hz
    rw [checksLoop_succ] at hz
    by_cases hesc : (real * real) >>> NORM_BITS + (imag * imag) >>> NORM_BITS > 32768
    · rw [if_pos hesc] at hz
      rw [List.mem_singleton.1 hz]
      exact hnear
    · rw [if_neg hesc] at hz
      rcases List.mem_cons.1 hz with h | h
      · rw [h]; exact hnear
      · have hb : loopBody id real0 imag0 real imag =
            some ((real * real) >>> NORM_BITS - (imag * imag) >>> NORM_BITS + real0,
              (real * imag) >>> (NORM_BITS - 1) + imag0) := by
          simp only [loopBody, id]
          rw [if_neg hesc]
        exact ih _ _ (loopBody_near_seed real0 imag0 real imag _ hb) z h

/-- Every escape check after the first is evaluated at a point near the seed. -/
theorem checksLoop_tail_near (real0 imag0 : Int) (n : Nat) (real imag : Int) :
    ∀ z ∈ (checksLoop id real0 imag0 n real imag).tail,
      |z.1 - real0| ≤ 32768 ∧ |z.2 - imag0| ≤ 32770 := by
  cases n with
  | zero => intro z hz; simp [checksLoop] at hz
  | succ n =>
    intro z hz
    rw [checksLoop_succ] at hz
    by_cases hesc : (real * real) >>> NORM_BITS + (imag * imag) >>> NORM_BITS > 32768
    · rw [if_pos hesc] at hz
      simp at hz
    · rw [if_neg hesc, List.tail_cons] at hz
      have hb : loopBody id real0 imag0 real imag =
          some ((real * real) >>> NORM_BITS - (imag * imag) >>> NORM_BITS + real0,
            (real * imag) >>> (NORM_BITS - 1) + imag0) := by
        simp only [loopBody, id]
        rw [if_neg hesc]
      exact checksLoop_near real0 imag0 n _ _
        (loopBody_near_seed real0 imag0 real imag _ hb) z hz

/-- The result of the loop counts the escape checks that did not fire. -/
theorem mandelbrotLoop_eq_checks (real0 imag0 : Int) :
    ∀ (n : Nat) (i real imag : Int),
      mandelbrotLoop id real0 imag0 n i real imag =
        i + (((checksLoop id real0 imag0 n real imag).filter
          fun z => decide (checkValue id z ≤ 32768)).length : Nat) := by
  intro n
  induction n with
  | zero => intro i real imag; simp [mandelbrotLoop, checksLoop]
  | succ n ih =>
    intro i real imag
    rw [mandelbrotLoop_succ, checksLoop_succ]
    simp only [id]
    by_cases hesc : (real * real) >>> NORM_BITS + (imag * imag) >>> NORM_BITS > 32768
    · rw [if_pos hesc, if_pos hesc]
      have : ¬ checkValue id (real, imag) ≤ 32768 := by
        simp only [checkValue, id]; omega
      simp [List.filter_cons, this]
    · rw [if_neg hesc, if_neg hesc, ih]
      have : checkValue id (real, imag) ≤ 32768 := by
        simp only [checkValue, id]; omega
      simp only [List.filter_cons, this, decide_True, if_true, List.length_cons]
      push_cast
      ring

/-! ## The render pass: further claims -/

/-- The calls of the scan are the closed-form seeds of the cells of the grid. -/
theorem mem_gridCalls (long : Int → Int) (c : Nat × Nat × Int × Int) :
    c ∈ gridCalls long ↔
      ∃ x y : Nat, x < WIDTH ∧ y < HEIGHT ∧
        c = (x, y, (seed long x y).1, (seed long x y).2) := by
  unfold gridCalls
  simp only [List.mem_flatMap, List.mem_map, List.mem_range]
  constructor
  · rintro ⟨x, hx, y, hy, rfl⟩
    exact ⟨x, y, hx, hy, rfl⟩
  · rintro ⟨x, y, hx, hy, rfl⟩
    exact ⟨x, hx, y, hy, rfl⟩

/-- The closed-form seeds of the grid lie inside the viewport. -/
theorem seed_inside (long : Int → Int) (hl : Exact32 long) (x y : Nat)
    (hx : x < WIDTH) (hy : y < HEIGHT) :
    realmin ≤ (seed long x y).1 ∧ (seed long x y).1 < realmax ∧
    imagmin < (seed long x y).2 ∧ (seed long x y).2 ≤ imagmax := by
  have hx160 : x < 160 := hx
  have hy120 : y < 120 := hy
  rw [seed_eq long hl, realmin_eq, realmax_eq, imagmin_eq, imagmax_eq]
  refine ⟨?_, ?_, ?_, ?_⟩ <;> simp only <;> omega

/-- The seeds handed to `mandelbrot` by a run of `main`, under an integer model
exact on the 32-bit range. -/
theorem main_calls_inside (long : Int → Int) (hl : Exact32 long) (screen0 : List (List Int)) :
    ∃ st, main long screen0 = some st ∧
      (∀ c ∈ st.calls, c.1 < 160 ∧ c.2.1 < 120 ∧
        realmin ≤ c.2.2.1 ∧ c.2.2.1 < realmax ∧ imagmin < c.2.2.2 ∧ c.2.2.2 ≤ imagmax) ∧
      (∀ x y : Nat, x < 160 → y < 120 →
        (x, y, realmin + (x : Int) * deltareal long, imagmax - (y : Int) * deltaimag long)
          ∈ st.calls) := by
  obtain ⟨st, hst, hc, -, -⟩ := main_spec long hl screen0
  refine ⟨st, hst, ?_, ?_⟩
  · intro c hmem
    rw [hc, mem_gridCalls] at hmem
    obtain ⟨x, y, hx, hy, rfl⟩ := hmem
    exact ⟨hx, hy, seed_inside long hl x y hx hy⟩
  · intro x y hx hy
    rw [hc, mem_gridCalls]
    exact ⟨x, y, hx, hy, rfl⟩

/-- C16: truncating the step sizes never makes the grid leave the viewport.
With `realmin = -16384`, `realmax = 5734`, `imagmin = -9830`, `imagmax = 9830`,
every seed `(real0, imag0)` handed to `mandelbrot` by a run of `main` belongs
to a pixel `(x, y)` of the grid and satisfies `realmin <= real0 < realmax` and
`imagmin < imag0 <= imagmax`, and every pixel of the grid has its seed handed
to `mandelbrot` (under either integer model). -/
theorem grid_inside_viewport (screen0 : List (List Int)) :
    (realmin = -16384 ∧ realmax = 5734 ∧ imagmin = -9830 ∧ imagmax = 9830) ∧
    (∃ st, main id screen0 = some st ∧
      (∀ c ∈ st.calls, c.1 < 160 ∧ c.2.1 < 120 ∧
        realmin ≤ c.2.2.1 ∧ c.2.2.1 < realmax ∧ imagmin < c.2.2.2 ∧ c.2.2.2 ≤ imagmax) ∧
      (∀ x y : Nat, x < 160 → y < 120 →
        (x, y, realmin + (x : Int) * deltareal id, imagmax - (y : Int) * deltaimag id)
          ∈ st.calls)) ∧
    (∃ st, main wrap32 screen0 = some st ∧
      (∀ c ∈ st.calls, c.1 < 160 ∧ c.2.1 < 120 ∧
        realmin ≤ c.2.2.1 ∧ c.2.2.1 < realmax ∧ imagmin < c.2.2.2 ∧ c.2.2.2 ≤ imagmax) ∧
      (∀ x y : Nat, x < 160 → y < 120 →
        (x, y, realmin + (x : Int) * deltareal wrap32, imagmax - (y : Int) * deltaimag wrap32)
          ∈ st.calls)) :=
  ⟨⟨realmin_eq, realmax_eq, imagmin_eq, imagmax_eq⟩,
    main_calls_inside id exact32_id screen0,
    main_calls_inside wrap32 exact32_wrap32 screen0⟩

/-- The first loop nest draws the cells `y` outer, `x` inner. -/
theorem clearWrites_cells :
    clearWrites.map (fun w => (w.1, w.2.1)) =
      (List.range HEIGHT).flatMap fun y => (List.range WIDTH).map fun x => (x, y) := by
  unfold clearWrites
  rw [List.map_flatMap]
  simp only [List.map_map]
  rfl

/-- A scan `a` outer, `b` inner that lists the pairs as `(b, a)` has no
repetition and contains exactly the pairs in range. -/
theorem scan_cells_transposed (m n : Nat) :
    ((List.range m).flatMap fun a => (List.range n).map fun b => (b, a)).Nodup ∧
    ∀ a b, (b, a) ∈ ((List.range m).flatMap fun a => (List.range n).map fun b => (b, a)) ↔
      a < m ∧ b < n := by
  refine ⟨?_, ?_⟩
  · rw [List.nodup_flatMap]
    refine ⟨fun a _ => ?_, ?_⟩
    · exact (List.nodup_range n).map (fun b1 b2 h => by simpa using h)
    · refine (List.nodup_range m).pairwise_of_forall_ne ?_
      intro a _ a' _ hne p hp hp'
      simp only [List.mem_map] at hp hp'
      obtain ⟨b, -, rfl⟩ := hp
      obtain ⟨b', -, h⟩ := hp'
      exact hne (by simpa using (congrArg Prod.snd h).symm)
  · intro a b
    simp only [List.mem_flatMap, List.mem_map, List.mem_range, Prod.mk.injEq]
    constructor
    · rintro ⟨a', ha', b', hb', rfl, rfl⟩
      exact ⟨ha', hb'⟩
    · rintro ⟨ha, hb⟩
      exact ⟨a, ha, b, hb, rfl, rfl⟩

/-- The writes of a run of `main`, the first loop nest followed by the render
loop nest, write every cell of the grid twice. -/
theorem eachCellTwice_writes (long : Int → Int) :
    EachCellTwice (clearWrites ++ renderWrites long) := by
  have hclear : clearWrites.length = 19200 :=
    length_scan HEIGHT WIDTH fun y x => (x, y, (0 : Int))
  have hrender : (renderWrites long).length = 19200 :=
    length_scan WIDTH HEIGHT fun x y => (x, y, shade long (seed long x y).1 (seed long x y).2)
  refine ⟨by rw [List.length_append, hclear, hrender], fun x y hx hy => ?_⟩
  have h1 : (clearWrites.map fun w => (w.1, w.2.1)).count (x, y) = 1 := by
    rw [clearWrites_cells]
    obtain ⟨hnd, hmem⟩ := scan_cells_transposed HEIGHT WIDTH
    exact count_cell_eq_one _ _ hnd ((hmem y x).2 ⟨hy, hx⟩)
  have h2 : ((renderWrites long).map fun w => (w.1, w.2.1)).count (x, y) = 1 := by
    rw [renderWrites_cells]
    exact eachCellOnce_scan.2.2 x y hx hy
  refine ⟨?_, ?_, ?_⟩
  · rw [List.take_left' hclear]; exact h1
  · rw [drop_clearWrites]; exact h2
  · rw [List.map_append, List.count_append, h1, h2]

/-- C11, counterexample: in a run of `main` (here on the empty framebuffer,
over unbounded integers) the cell `(0, 0)` is written twice, not once: first by
the loop nest that fills the screen with `col[15]`, then by the render loop. -/
theorem main_writes_cell_twice_counterexample :
    ∃ st, main id [] = some st ∧
      (st.writes.map fun w => (w.1, w.2.1)).count (0, 0) = 2 := by
  obtain ⟨st, hst, -, hw, -⟩ := main_spec id exact32_id []
  refine ⟨st, hst, ?_⟩
  rw [hw]
  exact ((eachCellTwice_writes id).2 0 0 (by decide) (by decide)).2.2

/-- C11, amended: in the sequence of framebuffer writes (`drawPixel` calls) of
one run of `main`, `38400` in all, each cell `(x, y)` with `0 <= x < 160` and
`0 <= y < 120` is written exactly twice: exactly once among the first `19200`
writes (the loop nest that fills the screen with `col[15]`) and exactly once
among the writes after them (the render loop), under either integer model. -/
theorem main_writes_each_cell_twice (screen0 : List (List Int)) :
    (∃ st, main id screen0 = some st ∧ EachCellTwice st.writes) ∧
    (∃ st, main wrap32 screen0 = some st ∧ EachCellTwice st.writes) := by
  constructor
  · obtain ⟨st, hst, -, hw, -⟩ := main_spec id exact32_id screen0
    exact ⟨st, hst, by rw [hw]; exact eachCellTwice_writes id⟩
  · obtain ⟨st, hst, -, hw, -⟩ := main_spec wrap32 exact32_wrap32 screen0
    exact ⟨st, hst, by rw [hw]; exact eachCellTwice_writes wrap32⟩

/-! ## The 32-bit code and the unbounded arithmetic -/

/-- A value whose square fits in 32 bits has magnitude at most `46340`. -/
theorem abs_le_of_square_fits (v : Int) (h : v * v ≤ 2147483647) :
    -46340 ≤ v ∧ v ≤ 46340 := by
  constructor
  · by_contra hc
    have : v ≤ -46341 := by omega
    nlinarith
  · by_contra hc
    have : 46341 ≤ v := by omega
    nlinarith

/-- The products of two values of magnitude at most `46340` fit in 32 bits. -/
theorem products_fit_of_abs_le (real imag : Int)
    (hre : -46340 ≤ real ∧ real ≤ 46340) (him : -46340 ≤ imag ∧ imag ≤ 46340) :
    real * real ≤ 2147483647 ∧ imag * imag ≤ 2147483647 ∧
    -2147483648 ≤ real * imag ∧ real * imag ≤ 2147483647 := by
  obtain ⟨hr1, hr2⟩ := hre
  obtain ⟨hi1, hi2⟩ := him
  refine ⟨by nlinarith, by nlinarith, ?_, ?_⟩
  · nlinarith [mul_nonneg (sub_nonneg.2 hr2) (sub_nonneg.2 hi2),
      mul_nonneg (sub_nonneg.2 hr1) (sub_nonneg.2 hi1)]
  · nlinarith [mul_nonneg (sub_nonneg.2 hr2) (sub_nonneg.2 hi1),
      mul_nonneg (sub_nonneg.2 hr1) (sub_nonneg.2 hi2)]

/-- One execution of the loop body in which no product overflows (the cross
term only matters when the check does not fire) is the same with 32-bit
wrap-around as over unbounded integers. -/
theorem loopBody_wrap32_eq (real0 imag0 real imag : Int)
    (hr : -1073741824 ≤ real0 ∧ real0 ≤ 1073741824)
    (hi : -1073741824 ≤ imag0 ∧ imag0 ≤ 1073741824)
    (h1 : real * real ≤ 2147483647) (h2 : imag * imag ≤ 2147483647)
    (h4 : ¬ (real * real) >>> NORM_BITS + (imag * imag) >>> NORM_BITS > 32768 →
      -2147483648 ≤ real * imag ∧ real * imag ≤ 2147483647) :
    loopBody wrap32 real0 imag0 real imag = loopBody id real0 imag0 real imag := by
  have hw := exact32_wrap32
  have haa : 0 ≤ real * real := mul_self_nonneg real
  have hbb : 0 ≤ imag * imag := mul_self_nonneg imag
  simp only [loopBody, id]
  rw [hw (real * real) (by omega) h1, hw (imag * imag) (by omega) h2]
  have h3 : wrap32 ((real * real) >>> NORM_BITS + (imag * imag) >>> NORM_BITS) =
      (real * real) >>> NORM_BITS + (imag * imag) >>> NORM_BITS := by
    apply hw <;> (rw [shiftRightNB, shiftRightNB]; omega)
  rw [h3]
  by_cases hesc : (real * real) >>> NORM_BITS + (imag * imag) >>> NORM_BITS > 32768
  · rw [if_pos hesc, if_pos hesc]
  · obtain ⟨h4a, h4b⟩ := h4 hesc
    rw [if_neg hesc, if_neg hesc, hw (real * imag) h4a h4b]
    have h5 : wrap32 ((real * real) >>> NORM_BITS - (imag * imag) >>> NORM_BITS) =
        (real * real) >>> NORM_BITS - (imag * imag) >>> NORM_BITS := by
      apply hw <;> (rw [shiftRightNB, shiftRightNB]; omega)
    have h6 : wrap32 ((real * real) >>> NORM_BITS - (imag * imag) >>> NORM_BITS + real0) =
        (real * real) >>> NORM_BITS - (imag * imag) >>> NORM_BITS + real0 := by
      apply hw <;> (rw [shiftRightNB, shiftRightNB]; omega)
    have h7 : wrap32 ((real * imag) >>> (NORM_BITS - 1) + imag0) =
        (real * imag) >>> (NORM_BITS - 1) + imag0 := by
      apply hw <;> (rw [shiftRightNB1]; omega)
    rw [h5, h6, h7]

/-- The log of check points runs `loopBody`. -/
theorem checksLoop_succ_body (long : Int → Int) (real0 imag0 : Int) (n : Nat)
    (real imag : Int) :
    checksLoop long real0 imag0 (n + 1) real imag =
      match loopBody long real0 imag0 real imag with
      | none => [(real, imag)]
      | some z => (real, imag) :: checksLoop long real0 imag0 n z.1 z.2 := by
  rw [checksLoop_succ_long]
  unfold loopBody
  by_cases h : long (long (real * real) >>> NORM_BITS + long (imag * imag) >>> NORM_BITS) > 32768
  · simp only [if_pos h]
  · simp only [if_neg h]

/-- When every product of the unbounded run fits in 32 bits, the 32-bit run
evaluates its escape checks at the same points. -/
theorem checksLoop_wrap32_eq (real0 imag0 : Int)
    (hr : -1073741824 ≤ real0 ∧ real0 ≤ 1073741824)
    (hi : -1073741824 ≤ imag0 ∧ imag0 ≤ 1073741824) :
    ∀ (n : Nat) (real imag : Int),
      (∀ p ∈ productsLoop real0 imag0 n real imag, -2147483648 ≤ p ∧ p ≤ 2147483647) →
      checksLoop wrap32 real0 imag0 n real imag = checksLoop id real0 imag0 n real imag := by
  intro n
  induction n with
  | zero => intro real imag _; rfl
  | succ n ih =>
    intro real imag hp
    rw [productsLoop_succ] at hp
    rw [checksLoop_succ_body, checksLoop_succ_body]
    by_cases hesc : (real * real) >>> NORM_BITS + (imag * imag) >>> NORM_BITS > 32768
    · rw [if_pos hesc] at hp
      have h1 := hp (real * real) (by simp)
      have h2 := hp (imag * imag) (by simp)
      rw [loopBody_wrap32_eq real0 imag0 real imag hr hi h1.2 h2.2 (fun h => absurd hesc h)]
      have hb : loopBody id real0 imag0 real imag = none := by
        simp only [loopBody, id]
        rw [if_pos hesc]
      rw [hb]
    · rw [if_neg hesc] at hp
      have h1 := hp (real * real) (by simp)
      have h2 := hp (imag * imag) (by simp)
      have h4 := hp (real * imag) (by simp)
      rw [loopBody_wrap32_eq real0 imag0 real imag hr hi h1.2 h2.2 (fun _ => h4)]
      have hb : loopBody id real0 imag0 real imag =
          some ((real * real) >>> NORM_BITS - (imag * imag) >>> NORM_BITS + real0,
            (real * imag) >>> (NORM_BITS - 1) + imag0) := by
        simp only [loopBody, id]
        rw [if_neg hesc]
      rw [hb]
      simp only
      rw [ih _ _ (fun p hmem => hp p (by simp [hmem]))]

/-- A call none of whose products overflows has a seed of magnitude at most
`46340`, since it squares both parts of the seed first. -/
theorem seed_small_of_fit (real0 imag0 : Int)
    (hfit : ∀ p ∈ mandelbrotProducts real0 imag0, -2147483648 ≤ p ∧ p ≤ 2147483647) :
    (-46340 ≤ real0 ∧ real0 ≤ 46340) ∧ (-46340 ≤ imag0 ∧ imag0 ≤ 46340) := by
  have hmem : real0 * real0 ∈ mandelbrotProducts real0 imag0 ∧
      imag0 * imag0 ∈ mandelbrotProducts real0 imag0 := by
    unfold mandelbrotProducts
    rw [show (15 : Nat) = 14 + 1 from rfl, productsLoop_succ]
    by_cases hesc : (real0 * real0) >>> NORM_BITS + (imag0 * imag0) >>> NORM_BITS > 32768
    · rw [if_pos hesc]; simp
    · rw [if_neg hesc]; simp
  exact ⟨abs_le_of_square_fits real0 (hfit _ hmem.1).2,
    abs_le_of_square_fits imag0 (hfit _ hmem.2).2⟩

/-- A call none of whose products overflows returns the same count with 32-bit
wrap-around as over unbounded integers, after the same escape checks. -/
theorem mandelbrot32_eq_of_fit (real0 imag0 : Int)
    (hfit : ∀ p ∈ mandelbrotProducts real0 imag0, -2147483648 ≤ p ∧ p ≤ 2147483647) :
    mandelbrot32 real0 imag0 = mandelbrot real0 imag0 ∧
    mandelbrotChecks wrap32 real0 imag0 = mandelbrotChecks id real0 imag0 := by
  obtain ⟨hr, hi⟩ := seed_small_of_fit real0 imag0 hfit
  have hr' : -1073741824 ≤ real0 ∧ real0 ≤ 1073741824 := by constructor <;> omega
  have hi' : -1073741824 ≤ imag0 ∧ imag0 ≤ 1073741824 := by constructor <;> omega
  constructor
  · unfold mandelbrot32 mandelbrot mandelbrotWith
    exact mandelbrotLoop_wrap32_eq real0 imag0 hr' hi' 15 0 real0 imag0 hfit
  · unfold mandelbrotChecks
    exact checksLoop_wrap32_eq real0 imag0 hr' hi' 15 real0 imag0 hfit

/-- A seed with `|real0| <= 13572` and `|imag0| <= 13570` never makes a product
overflow. -/
theorem fit_of_small_seed (real0 imag0 : Int)
    (hr : -13572 ≤ real0 ∧ real0 ≤ 13572) (hi : -13570 ≤ imag0 ∧ imag0 ≤ 13570) :
    ∀ p ∈ mandelbrotProducts real0 imag0, -2147483648 ≤ p ∧ p ≤ 2147483647 := by
  unfold mandelbrotProducts
  exact productsLoop_inRange real0 imag0 hr hi 15 real0 imag0
    (by constructor <;> omega) (by constructor <;> omega)

/-- With 32-bit wrap-around, a seed whose squares fit in 32 bits is given the
result `0` exactly when its truncated squared magnitude exceeds `32768`. -/
theorem mandelbrot32_eq_zero_iff (real0 imag0 : Int)
    (hr : -46340 ≤ real0 ∧ real0 ≤ 46340) (hi : -46340 ≤ imag0 ∧ imag0 ≤ 46340) :
    mandelbrot32 real0 imag0 = 0 ↔
      ((real0 * real0) >>> (13 : Nat)) + ((imag0 * imag0) >>> (13 : Nat)) > 32768 := by
  have hw := exact32_wrap32
  have haa : 0 ≤ real0 * real0 := mul_self_nonneg real0
  have hbb : 0 ≤ imag0 * imag0 := mul_self_nonneg imag0
  obtain ⟨h1, h2, -, -⟩ := products_fit_of_abs_le real0 imag0 hr hi
  unfold mandelbrot32
  rw [mandelbrotWith_eq_zero_iff]
  simp only [checkValue]
  rw [hw (real0 * real0) (by omega) h1, hw (imag0 * imag0) (by omega) h2]
  have h3 : wrap32 ((real0 * real0) >>> NORM_BITS + (imag0 * imag0) >>> NORM_BITS) =
      (real0 * real0) >>> NORM_BITS + (imag0 * imag0) >>> NORM_BITS := by
    apply hw <;> (rw [shiftRightNB, shiftRightNB]; omega)
  rw [h3]
  rfl

/-! ## The escape-time engine on the 32-bit target: claims -/

/-- C2, counterexample: for the seed `(-15418, -2069)`, the seed of pixel
`(7, 73)` of `main`, the orbit over unbounded integers first escapes at
`k = 3`, but the code with its 32-bit `long` returns `4` (the square of
`real = -47149` wraps around in the fourth iteration). -/
theorem first_escape_counterexample :
    escapes (orbit (-15418) (-2069) 3) ∧
    (∀ j : Nat, j < 3 → ¬ escapes (orbit (-15418) (-2069) j)) ∧
    mandelbrot32 (-15418) (-2069) = 4 := by
  refine ⟨by decide, ?_, by decide⟩
  intro j hj
  have : j = 0 ∨ j = 1 ∨ j = 2 := by omega
  rcases this with rfl | rfl | rfl <;> decide

/-- C2, amended: with the orbit `z_n` and `escapes` defined over unbounded
integers, the code with 32-bit wrap-around `long` returns the least `k` in
`0..14` whose orbit point `z_k` escapes, `15` if none of `z_0..z_14` escapes,
and `0` if and only if the seed itself escapes, for every seed for which
every product that `mandelbrot` evaluates (taken over unbounded integers) lies
in the signed 32-bit range; this covers every seed with `|real0| <= 13572` and
`|imag0| <= 13570`.  Computed over unbounded integers the same holds for every
seed. -/
theorem mandelbrot_eq_first_escape (real0 imag0 : Int) :
    ((∀ p ∈ mandelbrotProducts real0 imag0, -2 ^ 31 ≤ p ∧ p ≤ 2 ^ 31 - 1) →
      (∀ k : Nat, k < 15 → escapes (orbit real0 imag0 k) →
          (∀ j : Nat, j < k → ¬ escapes (orbit real0 imag0 j)) →
          mandelbrot32 real0 imag0 = k) ∧
      ((∀ k : Nat, k < 15 → ¬ escapes (orbit real0 imag0 k)) →
          mandelbrot32 real0 imag0 = 15) ∧
      (mandelbrot32 real0 imag0 = 0 ↔ escapes (real0, imag0))) ∧
    ((-13572 ≤ real0 ∧ real0 ≤ 13572) → (-13570 ≤ imag0 ∧ imag0 ≤ 13570) →
      ∀ p ∈ mandelbrotProducts real0 imag0, -2 ^ 31 ≤ p ∧ p ≤ 2 ^ 31 - 1) ∧
    ((∀ k : Nat, k < 15 → escapes (orbit real0 imag0 k) →
          (∀ j : Nat, j < k → ¬ escapes (orbit real0 imag0 j)) →
          mandelbrot real0 imag0 = k) ∧
      ((∀ k : Nat, k < 15 → ¬ escapes (orbit real0 imag0 k)) →
          mandelbrot real0 imag0 = 15) ∧
      (mandelbrot real0 imag0 = 0 ↔ escapes (real0, imag0))) := by
  refine ⟨fun hfit => ?_, fun hr hi p hp => ?_, first_escape_unbounded real0 imag0⟩
  · have hfit' : ∀ p ∈ mandelbrotProducts real0 imag0,
        -2147483648 ≤ p ∧ p ≤ 2147483647 := by
      intro p hp
      have := hfit p hp
      norm_num at this
      exact this
    rw [(mandelbrot32_eq_of_fit real0 imag0 hfit').1]
    exact first_escape_unbounded real0 imag0
  · have := fit_of_small_seed real0 imag0 hr hi p hp
    norm_num
    exact this

/-- Witness for the amended C2 at the seed `(-15970, 50)` of pixel `(3, 60)`:
no product overflows, `z_0..z_6` do not escape, `z_7` does, and the 32-bit
code returns `7`. -/
theorem mandelbrot_eq_first_escape_witness :
    (∀ p ∈ mandelbrotProducts (-15970) 50, -2 ^ 31 ≤ p ∧ p ≤ 2 ^ 31 - 1) ∧
    escapes (orbit (-15970) 50 7) ∧
    (∀ j : Nat, j < 7 → ¬ escapes (orbit (-15970) 50 j)) ∧
    mandelbrot32 (-15970) 50 = (7 : Nat) :=
  ⟨by decide, by decide, by decide,
    ((mandelbrot_eq_first_escape (-15970) 50).1 (by decide)).1 7 (by decide) (by decide)
      (by decide)⟩

/-- The bound `46340` of the amended C3 cannot be raised: the seeds `(46341, 0)`
and `(65536, 0)` have squared magnitude far above the threshold, but their
squares wrap around in 32 bits and the code returns `2` and `15`. -/
theorem mandelbrot32_square_overflow :
    (46341 : Int) * 46341 + 0 * 0 > 32768 * 2 ^ 13 + 2 * (2 ^ 13 - 1) ∧
    mandelbrot32 46341 0 = 2 ∧ mandelbrot32 65536 0 = 15 :=
  ⟨by decide, by decide, by decide⟩

/-- C3, amended: for every seed with `|real0| <= 46340` and `|imag0| <= 46340`
(both squares fit in 32 bits) whose squared magnitude with each square
truncated to the fixed-point scale exceeds the threshold,
`(real0^2 >> 13) + (imag0^2 >> 13) > 32768`, the code with 32-bit wrap-around
`long` returns `0`; this is the case whenever the exact squared magnitude
exceeds `32768 * 2^13` by more than the two truncation losses,
`real0^2 + imag0^2 > 32768 * 2^13 + 2 * (2^13 - 1)`.  Computed over unbounded
integers the same holds for every seed. -/
theorem mandelbrot_zero_of_escape (real0 imag0 : Int) :
    ((-46340 ≤ real0 ∧ real0 ≤ 46340) → (-46340 ≤ imag0 ∧ imag0 ≤ 46340) →
      (((real0 * real0) >>> (13 : Nat)) + ((imag0 * imag0) >>> (13 : Nat)) > 32768 →
          mandelbrot32 real0 imag0 = 0) ∧
      (real0 * real0 + imag0 * imag0 > 32768 * 2 ^ 13 + 2 * (2 ^ 13 - 1) →
          mandelbrot32 real0 imag0 = 0)) ∧
    ((((real0 * real0) >>> (13 : Nat)) + ((imag0 * imag0) >>> (13 : Nat)) > 32768 →
        mandelbrot real0 imag0 = 0) ∧
      (real0 * real0 + imag0 * imag0 > 32768 * 2 ^ 13 + 2 * (2 ^ 13 - 1) →
        mandelbrot real0 imag0 = 0)) := by
  refine ⟨fun hr hi => ⟨fun h => (mandelbrot32_eq_zero_iff real0 imag0 hr hi).2 h, fun h => ?_⟩,
    zero_of_escape_unbounded real0 imag0⟩
  apply (mandelbrot32_eq_zero_iff real0 imag0 hr hi).2
  rw [shiftRight13, shiftRight13]
  norm_num at h
  omega

/-- Witness for the amended C3 at the seed `(-16384, 9830)`. -/
theorem mandelbrot_zero_of_escape_witness :
    ((-16384 : Int) * (-16384) + 9830 * 9830 > 32768 * 2 ^ 13 + 2 * (2 ^ 13 - 1)) ∧
      mandelbrot32 (-16384) 9830 = 0 :=
  ⟨by decide,
    ((mandelbrot_zero_of_escape (-16384) 9830).1 (by decide) (by decide)).2 (by decide)⟩

/-- An iteration of the 32-bit code at a running point of magnitude at most
`46340` that does not break leaves the running point near the seed. -/
theorem loopBody32_near_seed (real0 imag0 real imag : Int) (z : Int × Int)
    (hr : -1073741824 ≤ real0 ∧ real0 ≤ 1073741824)
    (hi : -1073741824 ≤ imag0 ∧ imag0 ≤ 1073741824)
    (hre : -46340 ≤ real ∧ real ≤ 46340) (him : -46340 ≤ imag ∧ imag ≤ 46340)
    (h : loopBody wrap32 real0 imag0 real imag = some z) :
    |z.1 - real0| ≤ 32768 ∧ |z.2 - imag0| ≤ 32770 := by
  obtain ⟨h1, h2, h4a, h4b⟩ := products_fit_of_abs_le real imag hre him
  rw [loopBody_wrap32_eq real0 imag0 real imag hr hi h1 h2 (fun _ => ⟨h4a, h4b⟩)] at h
  exact loopBody_near_seed real0 imag0 real imag z h

/-- C15, counterexample: in the run of the 32-bit code for the seed
`(-15418, -2069)` of pixel `(7, 73)` of `main`, the iteration at the check
point `(-47149, 3717)` does not break (the square of `-47149` wraps around) and
updates the running point to `(-270027, -44856)`, at distance `254609` and
`42787` from the seed; the next escape check is evaluated there. -/
theorem loop_invariant_counterexample :
    (-47149, 3717) ∈ mandelbrotChecks wrap32 (-15418) (-2069) ∧
    loopBody wrap32 (-15418) (-2069) (-47149) 3717 = some (-270027, -44856) ∧
    (-270027, -44856) ∈ (mandelbrotChecks wrap32 (-15418) (-2069)).tail ∧
    ¬ (|(-270027 : Int) - (-15418)| ≤ 32768) ∧ ¬ (|(-44856 : Int) - (-2069)| ≤ 32770) :=
  ⟨by decide, by decide, by decide, by decide, by decide⟩

/-- C15, amended: loop invariant of `mandelbrot` as it runs with 32-bit
wrap-around `long`.  Every execution of the loop body at a running point with
`|real| <= 46340` and `|imag| <= 46340` (so that no product overflows) that
does not break updates `real` and `imag` to values with
`|real - real0| <= 32768` and `|imag - imag0| <= 32770`; consequently, in every
call none of whose products (taken over unbounded integers) leaves the signed
32-bit range, in particular for every seed with `|real0| <= 13572` and
`|imag0| <= 13570`, every escape check after the first is evaluated at a point
within these distances of the seed.  Over unbounded integers both statements
hold for every seed and every running point. -/
theorem loop_invariant_near_seed (real0 imag0 : Int) :
    ((-2 ^ 30 ≤ real0 ∧ real0 ≤ 2 ^ 30) → (-2 ^ 30 ≤ imag0 ∧ imag0 ≤ 2 ^ 30) →
      ∀ (real imag : Int) (z : Int × Int),
        (-46340 ≤ real ∧ real ≤ 46340) → (-46340 ≤ imag ∧ imag ≤ 46340) →
        loopBody wrap32 real0 imag0 real imag = some z →
        |z.1 - real0| ≤ 32768 ∧ |z.2 - imag0| ≤ 32770) ∧
    ((∀ p ∈ mandelbrotProducts real0 imag0, -2 ^ 31 ≤ p ∧ p ≤ 2 ^ 31 - 1) →
      ∀ z ∈ (mandelbrotChecks wrap32 real0 imag0).tail,
        |z.1 - real0| ≤ 32768 ∧ |z.2 - imag0| ≤ 32770) ∧
    ((-13572 ≤ real0 ∧ real0 ≤ 13572) → (-13570 ≤ imag0 ∧ imag0 ≤ 13570) →
      ∀ z ∈ (mandelbrotChecks wrap32 real0 imag0).tail,
        |z.1 - real0| ≤ 32768 ∧ |z.2 - imag0| ≤ 32770) ∧
    (∀ (real imag : Int) (z : Int × Int), loopBody id real0 imag0 real imag = some z →
      |z.1 - real0| ≤ 32768 ∧ |z.2 - imag0| ≤ 32770) ∧
    (∀ z ∈ (mandelbrotChecks id real0 imag0).tail,
      |z.1 - real0| ≤ 32768 ∧ |z.2 - imag0| ≤ 32770) := by
  have hid := checksLoop_tail_near real0 imag0 15 real0 imag0
  have hrun : (∀ p ∈ mandelbrotProducts real0 imag0, -2147483648 ≤ p ∧ p ≤ 2147483647) →
      ∀ z ∈ (mandelbrotChecks wrap32 real0 imag0).tail,
        |z.1 - real0| ≤ 32768 ∧ |z.2 - imag0| ≤ 32770 := by
    intro hfit
    rw [(mandelbrot32_eq_of_fit real0 imag0 hfit).2]
    exact hid
  refine ⟨?_, ?_, ?_, ?_, hid⟩
  · intro hr hi real imag z hre him h
    exact loopBody32_near_seed real0 imag0 real imag z
      (by norm_num at hr; exact hr) (by norm_num at hi; exact hi) hre him h
  · intro hfit
    refine hrun (fun p hp => ?_)
    have := hfit p hp
    norm_num at this
    exact this
  · intro hr hi
    exact hrun (fit_of_small_seed real0 imag0 hr hi)
  · intro real imag z h
    exact loopBody_near_seed real0 imag0 real imag z h

/-- Witness for the amended C15: the first iteration of the 32-bit code at the
seed `(-15418, -2069)` does not break and moves the running point to
`(13077, 5719)`. -/
theorem loop_invariant_near_seed_witness :
    loopBody wrap32 (-15418) (-2069) (-15418) (-2069) = some (13077, 5719) ∧
    |(13077 : Int) - (-15418)| ≤ 32768 ∧ |(5719 : Int) - (-2069)| ≤ 32770 :=
  ⟨by decide,
    (loop_invariant_near_seed (-15418) (-2069)).1 (by decide) (by decide)
      (-15418) (-2069) (13077, 5719) (by decide) (by decide) (by decide)⟩

end Longbrot
